import Mathlib

/-!
# Verification of the slide-deck history bridge

A shallow embedding of the undo/redo coordination core of the
`basic-slide-editor` repository:

* `src/store.ts` — the deck document model (a tree of shared maps/arrays),
  the structural edit actions, the deck-level undo manager construction
  (`getOrCreateUndoManager`, `createDeckCaptureTransaction`, tracked origins)
  and `serializeDeck`;
* `src/history/textHistory.ts` — the bridge between the deck-level undo
  manager and the per-fragment undo managers: fragment registry
  (`getFragmentHistory`, `getTextUndoManager`), pending payload queue
  (`enqueueTextHistoryPayload`, `dequeuePayload`), the deck listeners
  (`handleStackItemAdded`, `handleStackItemPopped`,
  `registerDeckUndoManager`) and the fragment-local push listener
  (`attachLocalListeners`).

The CRDT substrate (Yjs) is out of repository scope and is modelled by an
explicit operational semantics, faithful to the documented behaviour of
`Y.Doc.transact` and `Y.UndoManager`:

* a transaction atomically mutates the document and records which shared
  regions it structurally touched (a `Y.Map.set` / `Y.Array` insert or
  delete always integrates a new item and marks its type changed, even
  when the written value equals the current one — Yjs performs no value
  comparison);
* an undo manager captures a transaction iff its origin is tracked, the
  capture predicate accepts it, and it touched the manager's scope; the
  captured stack item records the reversible change-set, modelled as the
  per-region (before, after) values of the capturing transaction;
* `undo()` / `redo()` pop a stack item and revert its change-set inside a
  transaction whose origin is the undo manager itself; while undoing, a
  captured transaction is pushed onto the redo stack (event type `redo`),
  while redoing onto the undo stack (event type `undo`), and otherwise a
  capture clears the redo stack; `stack-item-added` fires inside that
  transaction's cleanup (while `currStackItem` is still set) and
  `stack-item-popped` fires after it;
* the deck manager's scope contains the `Y.Doc` itself
  (`collectUndoScope` pushes `doc`), so every transaction is in deck
  scope; a fragment manager's scope is its own fragment subtree only;
* a fragment manager is constructed as `new Y.UndoManager(fragment)`
  (no options), so its tracked origins are the Yjs default `{null}` plus
  the manager itself; the deck manager's tracked origins are
  `{DECK_HISTORY_ORIGIN, TEXT_HISTORY_ORIGIN}` plus the manager itself;
* Yjs's capture-timeout merging of rapid successive transactions into one
  stack item is elided (every capture yields a fresh stack item, i.e.
  edits are modelled as spaced beyond the capture timeout).

Machine integers do not occur in the bridged logic; positions are
modelled as `Int`, counters as `Nat`.
-/

/-- Origin tags carried by document transactions (`doc.transact(fn, origin)`).
`deckHistory` is `DECK_HISTORY_ORIGIN` (src/store.ts), `textHistory` is
`TEXT_HISTORY_ORIGIN` (src/history/textHistory.ts), `deckManager` is the deck
`Y.UndoManager` instance itself (the origin of its replay transactions),
`fragManager key` is the fragment-scoped `Y.UndoManager` for `key`,
`tagged s` is a string-tagged origin, and `null` is an untagged transaction. -/
inductive Origin where
  | deckHistory
  | textHistory
  | deckManager
  | fragManager (key : String)
  | tagged (tag : String)
  | null
deriving DecidableEq, Repr

/-- The payload threaded across the bridge (`TextHistoryPayload` in
src/history/textHistory.ts): `{ fragmentKey }`. -/
structure TextHistoryPayload where
  fragmentKey : String
deriving DecidableEq, Repr

/-- Association-list lookup, modelling `Map.get` on a JS `Map` keyed by
strings (insertion-ordered). -/
def alGet {α : Type} : List (String × α) → String → Option α
  | [], _ => none
  | (k', v) :: rest, k => if k' = k then some v else alGet rest k

/-- Association-list write, modelling `Map.set`: replaces in place when the
key exists (JS `Map.set` keeps the original insertion position), appends
otherwise. -/
def alSet {α : Type} : List (String × α) → String → α → List (String × α)
  | [], k, v => [(k, v)]
  | (k', v') :: rest, k, v =>
      if k' = k then (k, v) :: rest else (k', v') :: alSet rest k v

/-- Association-list delete, modelling `Map.delete`. -/
def alDel {α : Type} : List (String × α) → String → List (String × α)
  | [], _ => []
  | (k', v') :: rest, k => if k' = k then rest else (k', v') :: alDel rest k

/-- The serialized object union `DeckObject = TextObject | ImageObject`
from src/store.ts; it is both the input of the structural edit actions and
the output of `serializeDeck`. -/
inductive DeckObject where
  | text (id : String) (x y : Int) (text : String) (width scale : Option Int)
  | image (id : String) (x y : Int) (src : Option String) (width height : Int)
deriving DecidableEq, Repr

/-- The object's `id` field. -/
def DeckObject.id : DeckObject → String
  | .text i _ _ _ _ _ => i
  | .image i _ _ _ _ _ => i

/-- Serialized `Slide` from src/store.ts. -/
structure Slide where
  id : String
  objects : List DeckObject
deriving DecidableEq, Repr

/-- Serialized `Deck` from src/store.ts (`slides` is a record keyed by
slide id; modelled as an association list built in `slideOrder` order). -/
structure Deck where
  title : String
  slides : List (String × Slide)
  slideOrder : List String
deriving DecidableEq, Repr

/-- The shared `Y.Map` for one object, as written by `createYObject`:
the keys `id`, `type`, `x`, `y` are always set; `text`, `width`, `height`,
`scale`, `src` are optional. -/
structure YObject where
  id : String
  typ : String
  x : Int
  y : Int
  text : Option String := none
  width : Option Int := none
  height : Option Int := none
  scale : Option Int := none
  src : Option String := none
deriving DecidableEq, Repr

/-- The shared `Y.Map` for one slide, as written by `createYSlide`: the
`objects` map (`OBJECTS_KEY`) and the `objectOrder` array
(`OBJECT_ORDER_KEY`). Every slide produced by this core carries both
containers (`createYSlide` always sets them; the legacy `Y.Array`
migration path of `ensureSlideContainers` is not reachable from them). -/
structure YSlide where
  id : String
  objects : List (String × YObject)
  objectOrder : List String
deriving DecidableEq, Repr

/-- The root `deck` map (`DECK_KEY`) of the document: `title`
(`TITLE_KEY`), `slides` (`SLIDES_KEY`) and `slideOrder`
(`SLIDE_ORDER_KEY`) may each be absent before `ensureDeckStructure`
first runs. -/
structure YDeck where
  title : Option String := none
  slides : Option (List (String × YSlide)) := none
  slideOrder : Option (List String) := none
deriving DecidableEq, Repr

/-- The document state: the `deck` root map, the text fragments
(`doc.getXmlFragment(key)` content, modelled as the list of top-level node
texts — a key that was never seeded reads as the empty fragment `[]`),
and the `textCounter` entry of the `__deckHistoryBridge` map (absent until
the first relay transaction). -/
structure YDoc where
  deck : YDeck := {}
  fragments : List (String × List String) := []
  textCounter : Option Nat := none
deriving DecidableEq, Repr

/-- The fragment content stored for `key`, the empty fragment when the
share entry was never seeded. -/
def YDoc.fragAt (d : YDoc) (key : String) : List String :=
  (alGet d.fragments key).getD []

/-- `getTextFragmentKey` from src/store.ts. -/
def getTextFragmentKey (objectId : String) : String :=
  "text-" ++ objectId

/-- The regions a transaction structurally touched, i.e. the information
the substrate reports through `transaction.changed` /
`transaction.changedParentTypes`: whether the `deck` subtree was written,
whether the bridge map was written, and which text fragments were
written. A `set` marks its region changed unconditionally — Yjs
integrates a fresh item without comparing the written value to the
current one. -/
structure TxnChanges where
  deck : Bool := false
  counter : Bool := false
  frags : List String := []
deriving DecidableEq, Repr

/-- `transaction.changed.size > 0 || transaction.changedParentTypes.size > 0`
for the modelled transaction: it touched at least one region. -/
def TxnChanges.nonempty (c : TxnChanges) : Bool :=
  c.deck || c.counter || !c.frags.isEmpty

/-- `createDeckCaptureTransaction` from src/store.ts: the deck capture
predicate accepts a transaction iff it reports at least one changed type
or one changed parent type. -/
def createDeckCaptureTransaction (c : TxnChanges) : Bool :=
  c.nonempty

/-- `ensureDeckStructure` from src/store.ts: fills in the `slideOrder`
array, the `slides` map and a string `title` when absent. Returns the
completed deck map together with whether it performed any write. -/
def ensureDeckStructure (d : YDeck) : YDeck × Bool :=
  ({ title := some (d.title.getD "")
     slides := some (d.slides.getD [])
     slideOrder := some (d.slideOrder.getD []) },
   d.title.isNone || d.slides.isNone || d.slideOrder.isNone)

/-- `createYObject` from src/store.ts. -/
def createYObject : DeckObject → YObject
  | .text i x y t w s =>
      { id := i, typ := "text", x := x, y := y, text := some t
        width := w, scale := s }
  | .image i x y src w h =>
      { id := i, typ := "image", x := x, y := y
        src := match src with
          | some s => if s.trim ≠ "" then some s.trim else none
          | none => none
        width := some w, height := some h }

/-- `createYSlide` from src/store.ts. -/
def createYSlide (s : Slide) : YSlide :=
  { id := s.id
    objects := s.objects.map (fun o => (o.id, createYObject o))
    objectOrder := s.objects.map DeckObject.id }

/-- `yObjectToDeckObject` from src/store.ts. -/
def yObjectToDeckObject (o : YObject) : DeckObject :=
  if o.typ = "image" then
    .image o.id o.x o.y o.src (o.width.getD 0) (o.height.getD 0)
  else
    .text o.id o.x o.y (o.text.getD "") o.width o.scale

/-- `ySlideToSlide` from src/store.ts: ordered objects first, then stray
objects that lack an ordering entry. -/
def ySlideToSlide (s : YSlide) : Slide :=
  { id := s.id
    objects :=
      (s.objectOrder.filterMap (fun oid => (alGet s.objects oid).map yObjectToDeckObject))
      ++ ((s.objects.filter (fun kv => !s.objectOrder.contains kv.1)).map
            (fun kv => yObjectToDeckObject kv.2)) }

/-- `serializeDeck` from src/store.ts, reading only the `deck` root map. -/
def serializeYDeck (d : YDeck) : Deck :=
  let order := d.slideOrder.getD []
  { title := d.title.getD ""
    slideOrder := order
    slides := order.filterMap (fun sid =>
      (alGet (d.slides.getD []) sid).map (fun ys => (sid, ySlideToSlide ys))) }

/-- `serializeDeck` applied to a document. -/
def serializeDeck (d : YDoc) : Deck :=
  serializeYDeck d.deck

/-- `findObject` from src/store.ts, on the ensured deck structure:
`slides.get(slideId)`, then the slide's objects map, then
`objects.get(objectId)`. -/
def findObject (deck : YDeck) (slideId objectId : String) : Option YObject :=
  match alGet (deck.slides.getD []) slideId with
  | none => none
  | some ys => alGet ys.objects objectId

/-- `setDeckTitle` from src/store.ts: `ensureDeckStructure`, then
`deckMap.set(TITLE_KEY, title)` — an unconditional write, so the deck
region is always reported changed. -/
def setDeckTitle (d : YDoc) (title : String) : YDoc × TxnChanges :=
  let deck := (ensureDeckStructure d.deck).1
  ({ d with deck := { deck with title := some title } }, { deck := true })

/-- `addSlide` from src/store.ts: `slides.set(slide.id, createYSlide(slide))`
and `slideOrder.push([slide.id])`. -/
def addSlide (d : YDoc) (s : Slide) : YDoc × TxnChanges :=
  let deck := (ensureDeckStructure d.deck).1
  ({ d with deck :=
      { deck with
        slides := some (alSet (deck.slides.getD []) s.id (createYSlide s))
        slideOrder := some (deck.slideOrder.getD [] ++ [s.id]) } },
   { deck := true })

/-- `deleteSlide` from src/store.ts: returns without writing when the slide
is absent or not in `slideOrder`; otherwise removes the order entry and the
slide. (The fallback-slide computation only reads.) -/
def deleteSlide (d : YDoc) (slideId : String) : YDoc × TxnChanges :=
  let e := ensureDeckStructure d.deck
  let sl := e.1.slides.getD []
  let order := e.1.slideOrder.getD []
  match alGet sl slideId with
  | none => ({ d with deck := e.1 }, { deck := e.2 })
  | some _ =>
    if order.contains slideId then
      ({ d with deck :=
          { e.1 with
            slides := some (alDel sl slideId)
            slideOrder := some (order.erase slideId) } },
       { deck := true })
    else ({ d with deck := e.1 }, { deck := e.2 })

/-- `ensureTextFragmentInitialized` (src/store.ts) in the
`insideTransaction` case used by `appendObjectToSlide`: seeds
`doc.getXmlFragment(getTextFragmentKey(id))` with one paragraph holding
the object's text, but only when the fragment is still empty
(`fragment.length > 0` returns early). Returns the new fragment table and
the list of fragment keys written. -/
def seedTextFragment (fragments : List (String × List String)) (objectId text : String) :
    List (String × List String) × List String :=
  let key := getTextFragmentKey objectId
  if ((alGet fragments key).getD []).length > 0 then (fragments, [])
  else (alSet fragments key [text], [key])

/-- `appendObjectToSlide` from src/store.ts: no write when the slide is
absent; otherwise `objects.set`, an `objectOrder.push` when the id is not
yet ordered, and for text objects the fragment seeding. -/
def appendObjectToSlide (d : YDoc) (slideId : String) (o : DeckObject) : YDoc × TxnChanges :=
  let e := ensureDeckStructure d.deck
  let sl := e.1.slides.getD []
  match alGet sl slideId with
  | none => ({ d with deck := e.1 }, { deck := e.2 })
  | some ys =>
    let ys' : YSlide :=
      { ys with
        objects := alSet ys.objects o.id (createYObject o)
        objectOrder :=
          if ys.objectOrder.contains o.id then ys.objectOrder
          else ys.objectOrder ++ [o.id] }
    let deck' : YDeck := { e.1 with slides := some (alSet sl slideId ys') }
    match o with
    | .text oid _ _ t _ _ =>
      let seeded := seedTextFragment d.fragments oid t
      ({ d with deck := deck', fragments := seeded.1 }, { deck := true, frags := seeded.2 })
    | .image _ _ _ _ _ _ => ({ d with deck := deck' }, { deck := true })

/-- `updateObjectPosition` from src/store.ts: no write when `findObject`
misses; otherwise sets `x` and `y` on the object map. -/
def updateObjectPosition (d : YDoc) (slideId objectId : String) (px py : Int) : YDoc × TxnChanges :=
  let e := ensureDeckStructure d.deck
  let sl := e.1.slides.getD []
  match alGet sl slideId with
  | none => ({ d with deck := e.1 }, { deck := e.2 })
  | some ys =>
    match alGet ys.objects objectId with
    | none => ({ d with deck := e.1 }, { deck := e.2 })
    | some o =>
      let ys' : YSlide := { ys with objects := alSet ys.objects objectId { o with x := px, y := py } }
      ({ d with deck := { e.1 with slides := some (alSet sl slideId ys') } }, { deck := true })

/-- `deleteObjectFromSlide` from src/store.ts: no write when the slide is
absent or the objects map lacks the id; otherwise deletes the object and
its ordering entry. -/
def deleteObjectFromSlide (d : YDoc) (slideId objectId : String) : YDoc × TxnChanges :=
  let e := ensureDeckStructure d.deck
  let sl := e.1.slides.getD []
  match alGet sl slideId with
  | none => ({ d with deck := e.1 }, { deck := e.2 })
  | some ys =>
    if (alGet ys.objects objectId).isSome then
      let ys' : YSlide :=
        { ys with objects := alDel ys.objects objectId, objectOrder := ys.objectOrder.erase objectId }
      ({ d with deck := { e.1 with slides := some (alSet sl slideId ys') } }, { deck := true })
    else ({ d with deck := e.1 }, { deck := e.2 })

/-- The per-region reversible change-set recorded by a captured
transaction: for each region the transaction touched, its value before
and after the transaction. This models the delete-set/insertion pair a
`Y.UndoManager` stack item stores, at the granularity of the modelled
regions (restricted to the capturing manager's scope). -/
structure DocDelta where
  deck : Option (YDeck × YDeck) := none
  counter : Option (Option Nat × Option Nat) := none
  frags : List (String × List String × List String) := []
deriving DecidableEq, Repr

/-- The changed-region report of the transaction a delta was captured from. -/
def DocDelta.changes (δ : DocDelta) : TxnChanges :=
  { deck := δ.deck.isSome, counter := δ.counter.isSome
    frags := δ.frags.map (fun kba => kba.1) }

/-- Build the change-set of a transaction from the document before, the
document after, and the regions the transaction touched. -/
def mkDelta (old new : YDoc) (ch : TxnChanges) : DocDelta :=
  { deck := if ch.deck then some (old.deck, new.deck) else none
    counter := if ch.counter then some (old.textCounter, new.textCounter) else none
    frags := ch.frags.map (fun k => (k, old.fragAt k, new.fragAt k)) }

/-- Revert a change-set: every touched region goes back to its
before-value. This is what popping the stack item does (the substrate's
reversal of the recorded change-set is assumed correct). -/
def applyBefore (δ : DocDelta) (d : YDoc) : YDoc :=
  { deck := match δ.deck with | some ba => ba.1 | none => d.deck
    textCounter := match δ.counter with | some ba => ba.1 | none => d.textCounter
    fragments := δ.frags.foldl (fun fs kba => alSet fs kba.1 kba.2.1) d.fragments }

/-- The change-set of the reverting transaction itself: each region of the
popped item goes from its current value to the popped item's
before-value. -/
def revertDelta (δ : DocDelta) (cur : YDoc) : DocDelta :=
  { deck := δ.deck.map (fun ba => (cur.deck, ba.1))
    counter := δ.counter.map (fun ba => (cur.textCounter, ba.1))
    frags := δ.frags.map (fun kba => (kba.1, cur.fragAt kba.1, kba.2.1)) }

/-- A Stack Item: the reversible change-set plus its metadata map,
restricted to the only key the bridge ever uses
(`TEXT_HISTORY_META_KEY`). -/
structure StackItem where
  delta : DocDelta
  meta : Option TextHistoryPayload := none
deriving DecidableEq, Repr

/-- A history manager's stacks (`Y.UndoManager.undoStack` / `redoStack`). -/
structure UMState where
  undoStack : List StackItem := []
  redoStack : List StackItem := []
deriving DecidableEq, Repr

/-- The state of one editing session: the document, the deck undo
manager, the fragment history registry (`fragmentRegistry` keyed by
fragment key; a registered entry always has the local push listener of
`attachLocalListeners` installed), the pending payload queue
(`pendingPayloads`), whether the deck manager is in `bridgedDeckManagers`,
and how many bridge listener pairs are attached to the deck manager. -/
structure World where
  doc : YDoc := {}
  deckUM : UMState := {}
  registry : List (String × UMState) := []
  queue : List TextHistoryPayload := []
  deckBridged : Bool := false
  deckListeners : Nat := 0
deriving DecidableEq, Repr

/-- The event direction reported to `stack-item-added` /
`stack-item-popped` listeners: `undo` for items entering the undo stack
and for undo pops, `redo` for items entering the redo stack and for redo
pops. -/
inductive StackEventType where
  | undo
  | redo
deriving DecidableEq, Repr

/-- The deck manager's tracked origins
(src/store.ts `getOrCreateUndoManager`):
`{DECK_HISTORY_ORIGIN, TEXT_HISTORY_ORIGIN}` plus, per the substrate, the
manager itself. -/
def deckTrackedOrigins : Origin → Bool
  | .deckHistory => true
  | .textHistory => true
  | .deckManager => true
  | _ => false

/-- A fragment manager's tracked origins: constructed as
`new Y.UndoManager(fragment)` (src/history/textHistory.ts), so the
substrate default `{null}` plus the manager itself. -/
def fragTrackedOrigins (key : String) (o : Origin) : Bool :=
  o = .null || o = .fragManager key

/-- `dequeuePayload` from src/history/textHistory.ts: the empty queue
yields nothing, otherwise `queue.shift()`. -/
def dequeuePayload : List TextHistoryPayload → Option TextHistoryPayload × List TextHistoryPayload
  | [] => (none, [])
  | p :: rest => (some p, rest)

/-- `handleStackItemAdded` from src/history/textHistory.ts, as a function
of the triggering transaction's origin, the deck manager's
`currStackItem`, the pending queue, and the new item's current metadata;
returns the item's metadata and the queue afterwards. On
`TEXT_HISTORY_ORIGIN` it dequeues one payload and attaches it (an empty
queue is a no-op); on the deck manager's own replay origin it copies the
metadata of the item currently being processed, without consulting the
queue; other origins are ignored. -/
def handleStackItemAdded (origin : Origin) (curr : Option StackItem)
    (queue : List TextHistoryPayload) (meta : Option TextHistoryPayload) :
    Option TextHistoryPayload × List TextHistoryPayload :=
  if origin = .textHistory then
    match dequeuePayload queue with
    | (none, q') => (meta, q')
    | (some p, q') => (some p, q')
  else if origin = .deckManager then
    match curr with
    | none => (meta, queue)
    | some cs =>
      match cs.meta with
      | none => (meta, queue)
      | some p => (some p, queue)
  else (meta, queue)

/-- Run the `stack-item-added` handler once per attached listener pair
(`registerDeckUndoManager` attaches it once when the guard admits the
manager). -/
def iterAdded : Nat → Origin → Option StackItem →
    Option TextHistoryPayload × List TextHistoryPayload →
    Option TextHistoryPayload × List TextHistoryPayload
  | 0, _, _, mq => mq
  | n + 1, o, c, mq => iterAdded n o c (handleStackItemAdded o c mq.2 mq.1)

/-- The deck manager's capture step for one committed transaction
(substrate semantics plus the bridge's added-listener): capture happens
iff the origin is tracked and `createDeckCaptureTransaction` accepts the
change report (the deck scope contains the whole document, since
`collectUndoScope` pushes the `Y.Doc` itself). While undoing the item
goes to the redo stack, while redoing to the undo stack, otherwise it
goes to the undo stack and clears the redo stack. The `stack-item-added`
listeners then run with the new item's metadata and the queue. -/
def deckCapture (w : World) (origin : Origin) (δ : DocDelta)
    (undoing redoing : Bool) (curr : Option StackItem) : World :=
  if deckTrackedOrigins origin && createDeckCaptureTransaction δ.changes then
    let mq := iterAdded w.deckListeners origin curr (none, w.queue)
    let item : StackItem := { delta := δ, meta := mq.1 }
    let um := w.deckUM
    let um' : UMState :=
      if undoing then { um with redoStack := item :: um.redoStack }
      else if redoing then { um with undoStack := item :: um.undoStack }
      else { undoStack := item :: um.undoStack, redoStack := [] }
    { w with deckUM := um', queue := mq.2 }
  else w

/-- `enqueueTextHistoryPayload` from src/history/textHistory.ts: append
`{fragmentKey}` to the document's pending queue, then run the relay
transaction — tagged `TEXT_HISTORY_ORIGIN`, touching only the bridge
map's `textCounter` — which the deck manager's capture step observes.
The `undoing`/`redoing` flags are the deck manager's state at that moment
(true when this runs inside a deck `undo()`/`redo()` call). -/
def enqueueTextHistoryPayload (w : World) (fragmentKey : String) (undoing redoing : Bool) : World :=
  let w1 : World := { w with queue := w.queue ++ [⟨fragmentKey⟩] }
  let old := w1.doc
  let doc' : YDoc := { old with textCounter := some (old.textCounter.getD 0 + 1) }
  let δ := mkDelta old doc' { counter := true }
  deckCapture { w1 with doc := doc' } .textHistory δ undoing redoing none

/-- The fragment-local `stack-item-added` listener installed by
`attachLocalListeners` (src/history/textHistory.ts): returns immediately
when `event.type === 'redo'`, otherwise enqueues the fragment's payload
and triggers the relay transaction. -/
def attachLocalListenersHandler (w : World) (fragmentKey : String) (etype : StackEventType)
    (undoing redoing : Bool) : World :=
  if etype = .redo then w
  else enqueueTextHistoryPayload w fragmentKey undoing redoing

/-- A registered fragment manager's capture step for one committed
transaction that touched its fragment: capture happens iff the origin is
in the fragment manager's tracked origins; the item records the change
restricted to the fragment's subtree (the manager's scope), the redo
stack is cleared, and the local push listener fires with type `undo`. -/
def fragCaptureOne (w : World) (origin : Origin) (old new : YDoc) (key : String) : World :=
  match alGet w.registry key with
  | none => w
  | some um =>
    if fragTrackedOrigins key origin then
      let item : StackItem := { delta := { frags := [(key, old.fragAt key, new.fragAt key)] } }
      let w1 : World := { w with registry := alSet w.registry key { undoStack := item :: um.undoStack, redoStack := [] } }
      attachLocalListenersHandler w1 key .undo false false
    else w

/-- Run one top-level transaction: mutate the document, then let each
registered fragment manager whose fragment was touched capture it (with
the local listener's enqueue/relay), then let the deck manager capture
it. The two capture conditions are origin-disjoint, so their order is
immaterial. -/
def runTxn (w : World) (origin : Origin) (mutate : YDoc → YDoc × TxnChanges) : World :=
  let old := w.doc
  let res := mutate old
  let δ := mkDelta old res.1 res.2
  let w1 : World := { w with doc := res.1 }
  let w2 := res.2.frags.foldl (fun acc k => fragCaptureOne acc origin old res.1 k) w1
  deckCapture w2 origin δ false false none

/-- `getFragmentHistory` from src/history/textHistory.ts: return the
cached registry entry when present; otherwise create the fragment's
share entry (`doc.getXmlFragment`, which leaves every fragment's readable
content unchanged), construct a fresh fragment-scoped manager with empty
stacks, attach the local push listener, cache it and return it. -/
def getFragmentHistory (w : World) (fragmentKey : String) : World × UMState :=
  match alGet w.registry fragmentKey with
  | some um => (w, um)
  | none =>
    let um : UMState := {}
    ({ w with registry := alSet w.registry fragmentKey um }, um)

/-- `getTextUndoManager` from src/history/textHistory.ts: the fragment
history's undo manager. -/
def getTextUndoManager (w : World) (fragmentKey : String) : World × UMState :=
  getFragmentHistory w fragmentKey

/-- `registerDeckUndoManager` from src/history/textHistory.ts: guarded by
the `bridgedDeckManagers` membership set; the first call attaches the
`stack-item-added` and `stack-item-popped` listener pair, later calls
return immediately. -/
def registerDeckUndoManager (w : World) : World :=
  if w.deckBridged then w
  else { w with deckBridged := true, deckListeners := w.deckListeners + 1 }

/-- A fragment manager's `undo()`: pop the top undo item (empty stack is
a no-op), revert its change-set in a transaction originated by the
fragment manager itself; that transaction is captured — while undoing —
onto the fragment's own redo stack (no other manager tracks this origin),
and the local push listener sees event type `redo`, hence does not
enqueue. -/
def fragUndo (w : World) (key : String) (undoing redoing : Bool) : World :=
  match alGet w.registry key with
  | none => w
  | some um =>
    match um.undoStack with
    | [] => w
    | item :: rest =>
      let old := w.doc
      let doc' := applyBefore item.delta old
      let δ' := revertDelta item.delta old
      let um' : UMState := { undoStack := rest, redoStack := { delta := δ' } :: um.redoStack }
      let w1 : World := { w with doc := doc', registry := alSet w.registry key um' }
      attachLocalListenersHandler w1 key .redo undoing redoing

/-- A fragment manager's `redo()`: pop the top redo item (empty stack is
a no-op), revert its change-set; the capture — while redoing — pushes
onto the fragment's undo stack with event type `undo`, so the local push
listener enqueues a payload and triggers the relay transaction. -/
def fragRedo (w : World) (key : String) (undoing redoing : Bool) : World :=
  match alGet w.registry key with
  | none => w
  | some um =>
    match um.redoStack with
    | [] => w
    | item :: rest =>
      let old := w.doc
      let doc' := applyBefore item.delta old
      let δ' := revertDelta item.delta old
      let um' : UMState := { undoStack := { delta := δ' } :: um.undoStack, redoStack := rest }
      let w1 : World := { w with doc := doc', registry := alSet w.registry key um' }
      attachLocalListenersHandler w1 key .undo undoing redoing

/-- `handleStackItemPopped` from src/history/textHistory.ts: read the
popped Stack Item's metadata; without a payload it returns. With a
payload it resolves the fragment history for the key
(`getFragmentHistory`, which creates an empty-stacked manager when the
key was never registered) and invokes that fragment manager's `undo()` on
an undo pop and its `redo()` on a redo pop. -/
def handleStackItemPopped (w : World) (item : StackItem) (etype : StackEventType)
    (undoing redoing : Bool) : World :=
  match item.meta with
  | none => w
  | some payload =>
    let w1 := (getFragmentHistory w payload.fragmentKey).1
    if etype = .undo then fragUndo w1 payload.fragmentKey undoing redoing
    else fragRedo w1 payload.fragmentKey undoing redoing

/-- Run the `stack-item-popped` handler once per attached listener pair. -/
def iterPopped : Nat → World → StackItem → StackEventType → Bool → Bool → World
  | 0, w, _, _, _, _ => w
  | n + 1, w, item, t, u, r => iterPopped n (handleStackItemPopped w item t u r) item t u r

/-- The deck manager's `undo()`: empty stack is a no-op; otherwise pop
the top undo item, revert its change-set in a transaction originated by
the deck manager (captured — while undoing, with `currStackItem` set to
the popped item — onto the deck redo stack; no fragment manager tracks
this origin), then fire `stack-item-popped` with type `undo`. -/
def deckUndo (w : World) : World :=
  match w.deckUM.undoStack with
  | [] => w
  | item :: rest =>
    let old := w.doc
    let doc' := applyBefore item.delta old
    let δ' := revertDelta item.delta old
    let w1 : World := { w with doc := doc', deckUM := { w.deckUM with undoStack := rest } }
    let w2 := deckCapture w1 .deckManager δ' true false (some item)
    iterPopped w2.deckListeners w2 item .undo true false

/-- The deck manager's `redo()`: empty stack is a no-op; otherwise pop
the top redo item, revert its change-set (captured — while redoing —
onto the deck undo stack without clearing the redo stack), then fire
`stack-item-popped` with type `redo`. -/
def deckRedo (w : World) : World :=
  match w.deckUM.redoStack with
  | [] => w
  | item :: rest =>
    let old := w.doc
    let doc' := applyBefore item.delta old
    let δ' := revertDelta item.delta old
    let w1 : World := { w with doc := doc', deckUM := { w.deckUM with redoStack := rest } }
    let w2 := deckCapture w1 .deckManager δ' false true (some item)
    iterPopped w2.deckListeners w2 item .redo false true

/-- `canUndo()` — `undoStack.length > 0`. -/
def canUndo (w : World) : Bool :=
  !w.deckUM.undoStack.isEmpty

/-- `canRedo()` — `redoStack.length > 0`. -/
def canRedo (w : World) : Bool :=
  !w.deckUM.redoStack.isEmpty

/-- The structural edit actions of `createDeckActions` (src/store.ts)
covered by the history round-trip property. -/
inductive DeckAction where
  | setDeckTitle (title : String)
  | addSlide (slide : Slide)
  | deleteSlide (slideId : String)
  | appendObjectToSlide (slideId : String) (obj : DeckObject)
  | updateObjectPosition (slideId objectId : String) (x y : Int)
  | deleteObjectFromSlide (slideId objectId : String)
deriving DecidableEq, Repr

/-- The transaction an action wraps in `transactDeck` (origin
`DECK_HISTORY_ORIGIN`). -/
def deckActionTxn : DeckAction → YDoc → YDoc × TxnChanges
  | .setDeckTitle t, d => setDeckTitle d t
  | .addSlide s, d => addSlide d s
  | .deleteSlide sid, d => deleteSlide d sid
  | .appendObjectToSlide sid o, d => appendObjectToSlide d sid o
  | .updateObjectPosition sid oid px py, d => updateObjectPosition d sid oid px py
  | .deleteObjectFromSlide sid oid, d => deleteObjectFromSlide d sid oid

/-- Run one structural edit action (a `transactDeck` transaction). -/
def runDeckAction (w : World) (a : DeckAction) : World :=
  runTxn w .deckHistory (deckActionTxn a)

/-- Run a sequence of structural edit actions. -/
def applyActions (w : World) (as : List DeckAction) : World :=
  as.foldl runDeckAction w

/-- Call `deckUndo` `n` times. -/
def undoTimes : Nat → World → World
  | 0, w => w
  | n + 1, w => undoTimes n (deckUndo w)

/-- Call `undo()` repeatedly until `canUndo()` is false (each pop removes
exactly one undo item, so the stack length is sufficient fuel). -/
def undoAll (w : World) : World :=
  undoTimes w.deckUM.undoStack.length w

/-- Call `deckRedo` `n` times. -/
def redoTimes : Nat → World → World
  | 0, w => w
  | n + 1, w => redoTimes n (deckRedo w)

/-- Call `redo()` repeatedly until `canRedo()` is false. -/
def redoAll (w : World) : World :=
  redoTimes w.deckUM.redoStack.length w

/-- A deck-level `undo()` or `redo()` call. -/
inductive HistoryOp where
  | undo
  | redo
deriving DecidableEq, Repr

/-- Apply one deck-level history operation. -/
def runHistoryOp (w : World) : HistoryOp → World
  | .undo => deckUndo w
  | .redo => deckRedo w

/-- Apply a sequence of deck-level history operations. -/
def runHistoryOps (w : World) (ops : List HistoryOp) : World :=
  ops.foldl runHistoryOp w

/-- The empty document of a fresh session. -/
def emptyDoc : YDoc := {}

/-- A fresh editing session over document `d`: empty stacks, empty
registry and queue, and the deck manager bridged exactly once (the state
after the first `getOrCreateUndoManager` call). -/
def initialWorld (d : YDoc) : World :=
  { doc := d, deckBridged := true, deckListeners := 1 }

/-! ## Helper lemmas -/

theorem alGet_alSet_self {α : Type} (l : List (String × α)) (k : String) (v : α) :
    alGet (alSet l k v) k = some v := by
  induction l with
  | nil => simp [alSet, alGet]
  | cons hd tl ih =>
    by_cases h : hd.1 = k
    · simp [alSet, alGet, h]
    · simp [alSet, alGet, h, ih]

theorem ensureDeckStructure_of_unchanged (d : YDeck) (h : (ensureDeckStructure d).2 = false) :
    (ensureDeckStructure d).1 = d := by
  obtain ⟨t, s, o⟩ := d
  simp only [ensureDeckStructure, Bool.or_eq_false_iff, Option.isNone_eq_false_iff] at h
  obtain ⟨⟨ht, hs⟩, ho⟩ := h
  obtain ⟨t', rfl⟩ := Option.isSome_iff_exists.mp ht
  obtain ⟨s', rfl⟩ := Option.isSome_iff_exists.mp hs
  obtain ⟨o', rfl⟩ := Option.isSome_iff_exists.mp ho
  simp [ensureDeckStructure]

theorem iterAdded_untracked (n : Nat) (o : Origin) (c : Option StackItem)
    (mq : Option TextHistoryPayload × List TextHistoryPayload)
    (h1 : o ≠ .textHistory) (h2 : o ≠ .deckManager) :
    iterAdded n o c mq = mq := by
  induction n with
  | zero => rfl
  | succ n ih => simp [iterAdded, handleStackItemAdded, h1, h2, ih]

theorem iterAdded_deckManager_metaFree (n : Nat) (item : StackItem)
    (mq : Option TextHistoryPayload × List TextHistoryPayload)
    (h : item.meta = none) :
    iterAdded n .deckManager (some item) mq = mq := by
  induction n with
  | zero => rfl
  | succ n ih =>
    simp [iterAdded, handleStackItemAdded, h, ih]

theorem iterPopped_metaFree (n : Nat) (w : World) (item : StackItem)
    (t : StackEventType) (u r : Bool) (h : item.meta = none) :
    iterPopped n w item t u r = w := by
  induction n generalizing w with
  | zero => rfl
  | succ n ih =>
    simp [iterPopped, handleStackItemPopped, h, ih]

/-- Folding the undo reversal of a stack over a document (head = newest). -/
def undoFold (items : List StackItem) (d : YDoc) : YDoc :=
  items.foldl (fun acc it => applyBefore it.delta acc) d

theorem undoFold_nil (d : YDoc) : undoFold [] d = d := rfl

theorem undoFold_cons (i : StackItem) (S : List StackItem) (d : YDoc) :
    undoFold (i :: S) d = undoFold S (applyBefore i.delta d) := rfl

theorem applyBefore_deck (δ : DocDelta) (d : YDoc) :
    (applyBefore δ d).deck = match δ.deck with | some ba => ba.1 | none => d.deck := rfl

theorem undoFold_deck_congr (S : List StackItem) :
    ∀ x y : YDoc, x.deck = y.deck → (undoFold S x).deck = (undoFold S y).deck := by
  induction S with
  | nil => intro x y h; exact h
  | cons i S ih =>
    intro x y h
    rw [undoFold_cons, undoFold_cons]
    apply ih
    rw [applyBefore_deck, applyBefore_deck]
    cases i.delta.deck with
    | none => exact h
    | some ba => rfl

theorem revertDelta_deck_apply (δ : DocDelta) (cur x : YDoc) (hx : x.deck = cur.deck ∨ δ.deck.isSome) :
    (applyBefore (revertDelta δ cur) x).deck = cur.deck := by
  rw [applyBefore_deck]
  cases h : δ.deck with
  | none =>
    simp [revertDelta, h]
    rcases hx with hx | hx
    · exact hx
    · simp [h] at hx
  | some ba => simp [revertDelta, h]

theorem mkDelta_changes (old new : YDoc) (ch : TxnChanges) :
    (mkDelta old new ch).changes = ch := by
  obtain ⟨cd, cc, cf⟩ := ch
  cases cd <;> cases cc <;>
    simp [mkDelta, DocDelta.changes, List.map_map, Function.comp_def]

theorem deckActionTxn_deck_complete (a : DeckAction) (d : YDoc)
    (h : (deckActionTxn a d).2.deck = false) :
    (deckActionTxn a d).1.deck = d.deck := by
  cases a with
  | setDeckTitle t => simp [deckActionTxn, setDeckTitle] at h
  | addSlide s => simp [deckActionTxn, addSlide] at h
  | deleteSlide sid =>
    simp only [deckActionTxn, deleteSlide] at h ⊢
    split at h
    · exact ensureDeckStructure_of_unchanged _ h
    · split at h
      · simp at h
      · rename_i hcond
        rw [if_neg hcond]
        exact ensureDeckStructure_of_unchanged _ h
  | appendObjectToSlide sid o =>
    simp only [deckActionTxn, appendObjectToSlide] at h ⊢
    split at h
    · exact ensureDeckStructure_of_unchanged _ h
    · split at h <;> simp at h
  | updateObjectPosition sid oid px py =>
    simp only [deckActionTxn, updateObjectPosition] at h ⊢
    split at h
    · exact ensureDeckStructure_of_unchanged _ h
    · split at h
      · exact ensureDeckStructure_of_unchanged _ h
      · simp at h
  | deleteObjectFromSlide sid oid =>
    simp only [deckActionTxn, deleteObjectFromSlide] at h ⊢
    split at h
    · exact ensureDeckStructure_of_unchanged _ h
    · split at h
      · simp at h
      · rename_i hcond
        rw [if_neg hcond]
        exact ensureDeckStructure_of_unchanged _ h

theorem fragCaptureOne_nilRegistry (w : World) (o : Origin) (old new : YDoc) (k : String)
    (h : w.registry = []) : fragCaptureOne w o old new k = w := by
  simp [fragCaptureOne, h, alGet]

theorem fragCaptureFold_nilRegistry (ks : List String) (w : World) (o : Origin) (old new : YDoc)
    (h : w.registry = []) :
    ks.foldl (fun acc k => fragCaptureOne acc o old new k) w = w := by
  induction ks with
  | nil => rfl
  | cons k ks ih => simp [List.foldl_cons, fragCaptureOne_nilRegistry w o old new k h, ih]

/-- All items of a stack carry no bridge metadata. -/
def metaFree (items : List StackItem) : Prop :=
  ∀ it ∈ items, it.meta = none

/-- Invariant of a purely structural session (no fragment manager was ever
registered): empty registry, metadata-free stacks, and the two fold
equations stating that replaying the undo stack reaches the initial deck
and replaying the redo stack reaches the pre-undo deck. -/
def StructInv (d0 dN : YDoc) (w : World) : Prop :=
  w.registry = [] ∧ metaFree w.deckUM.undoStack ∧ metaFree w.deckUM.redoStack ∧
  (undoFold w.deckUM.undoStack w.doc).deck = d0.deck ∧
  (undoFold w.deckUM.redoStack w.doc).deck = dN.deck


theorem runDeckAction_forward (d0 : YDoc) (w : World) (a : DeckAction)
    (hreg : w.registry = []) (hrs : w.deckUM.redoStack = [])
    (hmf : metaFree w.deckUM.undoStack)
    (hinv : (undoFold w.deckUM.undoStack w.doc).deck = d0.deck) :
    (runDeckAction w a).registry = [] ∧
    (runDeckAction w a).deckUM.redoStack = [] ∧
    metaFree (runDeckAction w a).deckUM.undoStack ∧
    (undoFold (runDeckAction w a).deckUM.undoStack (runDeckAction w a).doc).deck = d0.deck := by
  rcases htx : deckActionTxn a w.doc with ⟨d1, ch⟩
  have hcomplete : ch.deck = false → d1.deck = w.doc.deck := by
    intro hd
    have := deckActionTxn_deck_complete a w.doc (by rw [htx]; exact hd)
    rwa [htx] at this
  have hdeck : (applyBefore (mkDelta w.doc d1 ch) d1).deck = w.doc.deck := by
    by_cases hd : ch.deck
    · rw [applyBefore_deck]
      simp [mkDelta, hd]
    · rw [applyBefore_deck]
      simp only [Bool.not_eq_true] at hd
      simp only [mkDelta, hd, if_neg]
      simpa using hcomplete hd
  simp only [runDeckAction, runTxn, htx]
  have hfold := fragCaptureFold_nilRegistry ch.frags { w with doc := d1 } .deckHistory w.doc d1 hreg
  rw [hfold]
  by_cases hc : createDeckCaptureTransaction (mkDelta w.doc d1 ch).changes = true
  · have hcap : deckCapture { w with doc := d1 } .deckHistory (mkDelta w.doc d1 ch) false false none
        = { w with doc := d1,
                   deckUM := { undoStack := { delta := mkDelta w.doc d1 ch, meta := none } :: w.deckUM.undoStack,
                               redoStack := [] } } := by
      simp [deckCapture, deckTrackedOrigins, hc,
        iterAdded_untracked w.deckListeners .deckHistory none (none, w.queue) (by decide) (by decide)]
    rw [hcap]
    refine ⟨hreg, rfl, ?_, ?_⟩
    · intro it hit
      rcases List.mem_cons.mp hit with h | h
      · rw [h]
      · exact hmf it h
    · rw [undoFold_cons]
      calc (undoFold w.deckUM.undoStack (applyBefore (mkDelta w.doc d1 ch) d1)).deck
          = (undoFold w.deckUM.undoStack w.doc).deck := undoFold_deck_congr _ _ _ hdeck
        _ = d0.deck := hinv
  · have hcap : deckCapture { w with doc := d1 } .deckHistory (mkDelta w.doc d1 ch) false false none
        = { w with doc := d1 } := by
      simp only [Bool.not_eq_true] at hc
      simp [deckCapture, hc]
    rw [hcap]
    have hd : ch.deck = false := by
      simp only [Bool.not_eq_true] at hc
      rw [createDeckCaptureTransaction, mkDelta_changes] at hc
      simp only [TxnChanges.nonempty, Bool.or_eq_false_iff] at hc
      exact hc.1.1
    refine ⟨hreg, hrs, hmf, ?_⟩
    calc (undoFold w.deckUM.undoStack d1).deck
        = (undoFold w.deckUM.undoStack w.doc).deck :=
          undoFold_deck_congr _ _ _ (hcomplete hd)
      _ = d0.deck := hinv

theorem applyActions_forward (d0 : YDoc) (as : List DeckAction) :
    ∀ w : World, w.registry = [] → w.deckUM.redoStack = [] → metaFree w.deckUM.undoStack →
    (undoFold w.deckUM.undoStack w.doc).deck = d0.deck →
    (applyActions w as).registry = [] ∧ (applyActions w as).deckUM.redoStack = [] ∧
    metaFree (applyActions w as).deckUM.undoStack ∧
    (undoFold (applyActions w as).deckUM.undoStack (applyActions w as).doc).deck = d0.deck := by
  induction as with
  | nil => intro w h1 h2 h3 h4; exact ⟨h1, h2, h3, h4⟩
  | cons a as ih =>
    intro w h1 h2 h3 h4
    obtain ⟨g1, g2, g3, g4⟩ := runDeckAction_forward d0 w a h1 h2 h3 h4
    simpa [applyActions, List.foldl_cons] using ih (runDeckAction w a) g1 g2 g3 g4

theorem deckUndo_step (d0 dN : YDoc) (w : World) (h : StructInv d0 dN w) :
    StructInv d0 dN (deckUndo w) ∧
    (deckUndo w).deckUM.undoStack.length = w.deckUM.undoStack.length - 1 := by
  obtain ⟨hreg, hmfU, hmfR, hU, hR⟩ := h
  cases hS : w.deckUM.undoStack with
  | nil =>
    constructor
    · have hid : deckUndo w = w := by simp [deckUndo, hS]
      rw [hid]
      exact ⟨hreg, hmfU, hmfR, hU, hR⟩
    · simp [deckUndo, hS]
  | cons item rest =>
    have hm : item.meta = none := hmfU item (by rw [hS]; exact List.mem_cons_self _ _)
    have hrest : metaFree rest := fun it hit => hmfU it (by rw [hS]; exact List.mem_cons_of_mem _ hit)
    have hUc : (undoFold rest (applyBefore item.delta w.doc)).deck = d0.deck := by
      rw [hS, undoFold_cons] at hU; exact hU
    simp only [deckUndo, hS]
    by_cases hc : createDeckCaptureTransaction (revertDelta item.delta w.doc).changes = true
    · have hcap : deckCapture
          { w with doc := applyBefore item.delta w.doc, deckUM := { w.deckUM with undoStack := rest } }
          .deckManager (revertDelta item.delta w.doc) true false (some item)
          = { w with doc := applyBefore item.delta w.doc,
                     deckUM := { undoStack := rest,
                                 redoStack := { delta := revertDelta item.delta w.doc, meta := none }
                                   :: w.deckUM.redoStack } } := by
        simp [deckCapture, deckTrackedOrigins, hc,
          iterAdded_deckManager_metaFree w.deckListeners item (none, w.queue) hm]
      rw [hcap, iterPopped_metaFree _ _ _ _ _ _ hm]
      refine ⟨⟨hreg, hrest, ?_, hUc, ?_⟩, by simp⟩
      · intro it hit
        rcases List.mem_cons.mp hit with hh | hh
        · rw [hh]
        · exact hmfR it hh
      · rw [undoFold_cons]
        have hx : (applyBefore item.delta w.doc).deck = w.doc.deck ∨ item.delta.deck.isSome = true := by
          cases hdd : item.delta.deck with
          | none => exact Or.inl (by rw [applyBefore_deck, hdd])
          | some ba => exact Or.inr rfl
        calc (undoFold w.deckUM.redoStack
                (applyBefore (revertDelta item.delta w.doc) (applyBefore item.delta w.doc))).deck
            = (undoFold w.deckUM.redoStack w.doc).deck :=
              undoFold_deck_congr _ _ _ (revertDelta_deck_apply item.delta w.doc _ hx)
          _ = dN.deck := hR
    · have hdd : item.delta.deck = none := by
        cases hdd : item.delta.deck with
        | none => rfl
        | some ba =>
          exact absurd (by simp [createDeckCaptureTransaction, TxnChanges.nonempty,
            revertDelta, DocDelta.changes, hdd]) hc
      have hcap : deckCapture
          { w with doc := applyBefore item.delta w.doc, deckUM := { w.deckUM with undoStack := rest } }
          .deckManager (revertDelta item.delta w.doc) true false (some item)
          = { w with doc := applyBefore item.delta w.doc, deckUM := { w.deckUM with undoStack := rest } } := by
        simp only [Bool.not_eq_true] at hc
        simp [deckCapture, hc]
      rw [hcap, iterPopped_metaFree _ _ _ _ _ _ hm]
      refine ⟨⟨hreg, hrest, hmfR, hUc, ?_⟩, by simp⟩
      calc (undoFold w.deckUM.redoStack (applyBefore item.delta w.doc)).deck
          = (undoFold w.deckUM.redoStack w.doc).deck :=
            undoFold_deck_congr _ _ _ (by rw [applyBefore_deck, hdd])
        _ = dN.deck := hR

theorem deckRedo_step (d0 dN : YDoc) (w : World) (h : StructInv d0 dN w) :
    StructInv d0 dN (deckRedo w) ∧
    (deckRedo w).deckUM.redoStack.length = w.deckUM.redoStack.length - 1 := by
  obtain ⟨hreg, hmfU, hmfR, hU, hR⟩ := h
  cases hS : w.deckUM.redoStack with
  | nil =>
    constructor
    · have hid : deckRedo w = w := by simp [deckRedo, hS]
      rw [hid]
      exact ⟨hreg, hmfU, hmfR, hU, hR⟩
    · simp [deckRedo, hS]
  | cons item rest =>
    have hm : item.meta = none := hmfR item (by rw [hS]; exact List.mem_cons_self _ _)
    have hrest : metaFree rest := fun it hit => hmfR it (by rw [hS]; exact List.mem_cons_of_mem _ hit)
    have hRc : (undoFold rest (applyBefore item.delta w.doc)).deck = dN.deck := by
      rw [hS, undoFold_cons] at hR; exact hR
    simp only [deckRedo, hS]
    by_cases hc : createDeckCaptureTransaction (revertDelta item.delta w.doc).changes = true
    · have hcap : deckCapture
          { w with doc := applyBefore item.delta w.doc, deckUM := { w.deckUM with redoStack := rest } }
          .deckManager (revertDelta item.delta w.doc) false true (some item)
          = { w with doc := applyBefore item.delta w.doc,
                     deckUM := { undoStack := { delta := revertDelta item.delta w.doc, meta := none }
                                   :: w.deckUM.undoStack,
                                 redoStack := rest } } := by
        simp [deckCapture, deckTrackedOrigins, hc,
          iterAdded_deckManager_metaFree w.deckListeners item (none, w.queue) hm]
      rw [hcap, iterPopped_metaFree _ _ _ _ _ _ hm]
      refine ⟨⟨hreg, ?_, hrest, ?_, hRc⟩, by simp⟩
      · intro it hit
        rcases List.mem_cons.mp hit with hh | hh
        · rw [hh]
        · exact hmfU it hh
      · rw [undoFold_cons]
        have hx : (applyBefore item.delta w.doc).deck = w.doc.deck ∨ item.delta.deck.isSome = true := by
          cases hdd : item.delta.deck with
          | none => exact Or.inl (by rw [applyBefore_deck, hdd])
          | some ba => exact Or.inr rfl
        calc (undoFold w.deckUM.undoStack
                (applyBefore (revertDelta item.delta w.doc) (applyBefore item.delta w.doc))).deck
            = (undoFold w.deckUM.undoStack w.doc).deck :=
              undoFold_deck_congr _ _ _ (revertDelta_deck_apply item.delta w.doc _ hx)
          _ = d0.deck := hU
    · have hdd : item.delta.deck = none := by
        cases hdd : item.delta.deck with
        | none => rfl
        | some ba =>
          exact absurd (by simp [createDeckCaptureTransaction, TxnChanges.nonempty,
            revertDelta, DocDelta.changes, hdd]) hc
      have hcap : deckCapture
          { w with doc := applyBefore item.delta w.doc, deckUM := { w.deckUM with redoStack := rest } }
          .deckManager (revertDelta item.delta w.doc) false true (some item)
          = { w with doc := applyBefore item.delta w.doc, deckUM := { w.deckUM with redoStack := rest } } := by
        simp only [Bool.not_eq_true] at hc
        simp [deckCapture, hc]
      rw [hcap, iterPopped_metaFree _ _ _ _ _ _ hm]
      refine ⟨⟨hreg, hmfU, hrest, ?_, hRc⟩, by simp⟩
      calc (undoFold w.deckUM.undoStack (applyBefore item.delta w.doc)).deck
          = (undoFold w.deckUM.undoStack w.doc).deck :=
            undoFold_deck_congr _ _ _ (by rw [applyBefore_deck, hdd])
        _ = d0.deck := hU

theorem undoTimes_phase (d0 dN : YDoc) :
    ∀ (n : Nat) (w : World), StructInv d0 dN w → w.deckUM.undoStack.length = n →
    StructInv d0 dN (undoTimes n w) ∧ (undoTimes n w).deckUM.undoStack = [] := by
  intro n
  induction n with
  | zero =>
    intro w h hl
    exact ⟨h, List.length_eq_zero.mp hl⟩
  | succ n ih =>
    intro w h hl
    obtain ⟨h', hlen⟩ := deckUndo_step d0 dN w h
    have hn : (deckUndo w).deckUM.undoStack.length = n := by
      rw [hlen, hl]; rfl
    simpa [undoTimes] using ih (deckUndo w) h' hn

theorem redoTimes_phase (d0 dN : YDoc) :
    ∀ (n : Nat) (w : World), StructInv d0 dN w → w.deckUM.redoStack.length = n →
    StructInv d0 dN (redoTimes n w) ∧ (redoTimes n w).deckUM.redoStack = [] := by
  intro n
  induction n with
  | zero =>
    intro w h hl
    exact ⟨h, List.length_eq_zero.mp hl⟩
  | succ n ih =>
    intro w h hl
    obtain ⟨h', hlen⟩ := deckRedo_step d0 dN w h
    have hn : (deckRedo w).deckUM.redoStack.length = n := by
      rw [hlen, hl]; rfl
    simpa [redoTimes] using ih (deckRedo w) h' hn

/-! ## The claims -/

/-- C6: For every sequence of structural edits (addSlide,
appendObjectToSlide, updateObjectPosition, deleteObjectFromSlide,
deleteSlide — and also setDeckTitle) applied to a fresh document, calling
the deck manager's undo() repeatedly until canUndo() is false restores
the document to its initial serialized state, and calling redo()
repeatedly thereafter restores the pre-undo serialized state. -/
theorem structural_edits_round_trip (as : List DeckAction) (d0 : YDoc) :
    canUndo (undoAll (applyActions (initialWorld d0) as)) = false ∧
    serializeDeck (undoAll (applyActions (initialWorld d0) as)).doc = serializeDeck d0 ∧
    canRedo (redoAll (undoAll (applyActions (initialWorld d0) as))) = false ∧
    serializeDeck (redoAll (undoAll (applyActions (initialWorld d0) as))).doc
      = serializeDeck (applyActions (initialWorld d0) as).doc := by
  obtain ⟨g1, g2, g3, g4⟩ := applyActions_forward d0 as (initialWorld d0) rfl rfl
    (fun it hit => absurd hit (List.not_mem_nil it)) rfl
  have hstruct : StructInv d0 (applyActions (initialWorld d0) as).doc
      (applyActions (initialWorld d0) as) := by
    refine ⟨g1, g3, ?_, g4, ?_⟩
    · rw [g2]
      exact fun it hit => absurd hit (List.not_mem_nil it)
    · rw [g2, undoFold_nil]
  obtain ⟨hU1, hU2⟩ := undoTimes_phase d0 (applyActions (initialWorld d0) as).doc
    (applyActions (initialWorld d0) as).deckUM.undoStack.length
    (applyActions (initialWorld d0) as) hstruct rfl
  have hUeq : undoAll (applyActions (initialWorld d0) as)
      = undoTimes (applyActions (initialWorld d0) as).deckUM.undoStack.length
          (applyActions (initialWorld d0) as) := rfl
  have hdeckU : (undoAll (applyActions (initialWorld d0) as)).doc.deck = d0.deck := by
    have h := hU1.2.2.2.1
    rw [hU2, undoFold_nil] at h
    rw [hUeq]
    exact h
  obtain ⟨hR1, hR2⟩ := redoTimes_phase d0 (applyActions (initialWorld d0) as).doc
    (undoAll (applyActions (initialWorld d0) as)).deckUM.redoStack.length
    (undoAll (applyActions (initialWorld d0) as)) (hUeq ▸ hU1) rfl
  have hReq : redoAll (undoAll (applyActions (initialWorld d0) as))
      = redoTimes (undoAll (applyActions (initialWorld d0) as)).deckUM.redoStack.length
          (undoAll (applyActions (initialWorld d0) as)) := rfl
  have hdeckR : (redoAll (undoAll (applyActions (initialWorld d0) as))).doc.deck
      = (applyActions (initialWorld d0) as).doc.deck := by
    have h := hR1.2.2.2.2
    rw [hR2, undoFold_nil] at h
    rw [hReq]
    exact h
  refine ⟨?_, ?_, ?_, ?_⟩
  · rw [hUeq]
    simp [canUndo, hU2]
  · simp only [serializeDeck]
    exact congrArg serializeYDeck hdeckU
  · rw [hReq]
    simp [canRedo, hR2]
  · simp only [serializeDeck]
    exact congrArg serializeYDeck hdeckR

theorem deckCapture_listeners (w : World) (o : Origin) (δ : DocDelta) (u r : Bool)
    (c : Option StackItem) : (deckCapture w o δ u r c).deckListeners = w.deckListeners := by
  unfold deckCapture
  split <;> rfl

theorem enqueue_listeners (w : World) (k : String) (u r : Bool) :
    (enqueueTextHistoryPayload w k u r).deckListeners = w.deckListeners := by
  unfold enqueueTextHistoryPayload
  rw [deckCapture_listeners]

theorem attachLocal_listeners (w : World) (k : String) (t : StackEventType) (u r : Bool) :
    (attachLocalListenersHandler w k t u r).deckListeners = w.deckListeners := by
  unfold attachLocalListenersHandler
  split
  · rfl
  · rw [enqueue_listeners]

theorem fragUndo_frame (w : World) (k : String) (u r : Bool) :
    (fragUndo w k u r).deckUM = w.deckUM ∧ (fragUndo w k u r).queue = w.queue ∧
    (fragUndo w k u r).deckListeners = w.deckListeners := by
  cases halg : alGet w.registry k with
  | none => simp [fragUndo, halg]
  | some um =>
    cases hus : um.undoStack with
    | nil => simp [fragUndo, halg, hus]
    | cons item rest => simp [fragUndo, halg, hus, attachLocalListenersHandler]

theorem fragRedo_listeners (w : World) (k : String) (u r : Bool) :
    (fragRedo w k u r).deckListeners = w.deckListeners := by
  cases halg : alGet w.registry k with
  | none => simp [fragRedo, halg]
  | some um =>
    cases hus : um.redoStack with
    | nil => simp [fragRedo, halg, hus]
    | cons item rest =>
      simp only [fragRedo, halg, hus]
      rw [attachLocal_listeners]

theorem getFragmentHistory_frame (w : World) (k : String) :
    ((getFragmentHistory w k).1).deckUM = w.deckUM ∧ ((getFragmentHistory w k).1).queue = w.queue ∧
    ((getFragmentHistory w k).1).deckListeners = w.deckListeners ∧
    ((getFragmentHistory w k).1).doc = w.doc := by
  cases halg : alGet w.registry k with
  | none => simp [getFragmentHistory, halg]
  | some um => simp [getFragmentHistory, halg]

theorem handleStackItemPopped_listeners (w : World) (item : StackItem) (t : StackEventType)
    (u r : Bool) : (handleStackItemPopped w item t u r).deckListeners = w.deckListeners := by
  cases hm : item.meta with
  | none => simp [handleStackItemPopped, hm]
  | some p =>
    simp only [handleStackItemPopped, hm]
    split
    · rw [(fragUndo_frame _ _ _ _).2.2, (getFragmentHistory_frame w p.fragmentKey).2.2.1]
    · rw [fragRedo_listeners, (getFragmentHistory_frame w p.fragmentKey).2.2.1]

theorem iterPopped_listeners (n : Nat) (w : World) (item : StackItem) (t : StackEventType)
    (u r : Bool) : (iterPopped n w item t u r).deckListeners = w.deckListeners := by
  induction n generalizing w with
  | zero => rfl
  | succ n ih => rw [iterPopped, ih, handleStackItemPopped_listeners]

theorem deckUndo_listeners (w : World) : (deckUndo w).deckListeners = w.deckListeners := by
  cases hS : w.deckUM.undoStack with
  | nil => simp [deckUndo, hS]
  | cons item rest =>
    simp only [deckUndo, hS]
    rw [iterPopped_listeners, deckCapture_listeners]

theorem deckRedo_listeners (w : World) : (deckRedo w).deckListeners = w.deckListeners := by
  cases hS : w.deckUM.redoStack with
  | nil => simp [deckRedo, hS]
  | cons item rest =>
    simp only [deckRedo, hS]
    rw [iterPopped_listeners, deckCapture_listeners]

theorem iterAdded_one (o : Origin) (c : Option StackItem)
    (mq : Option TextHistoryPayload × List TextHistoryPayload) :
    iterAdded 1 o c mq = handleStackItemAdded o c mq.2 mq.1 := rfl

theorem handleAdded_textHistory_none (c : Option StackItem) (q : List TextHistoryPayload) :
    handleStackItemAdded .textHistory c q none = dequeuePayload q := by
  simp only [handleStackItemAdded, if_pos]
  cases hdq : dequeuePayload q with
  | mk f s => cases f <;> simp

theorem dequeue_append_isSome (q : List TextHistoryPayload) (x : TextHistoryPayload) :
    ((dequeuePayload (q ++ [x])).1).isSome = true := by
  cases q <;> simp [dequeuePayload]

/-- Every deck stack item (undo and redo side) carries a bridge payload. -/
def allDelegated (w : World) : Prop :=
  (∀ it ∈ w.deckUM.undoStack, it.meta.isSome = true) ∧
  ∀ it ∈ w.deckUM.redoStack, it.meta.isSome = true

theorem enqueue_redo_delegated (w : World) (k : String) (hl : w.deckListeners = 1)
    (hund : ∀ it ∈ w.deckUM.undoStack, it.meta.isSome = true) :
    (∀ it ∈ (enqueueTextHistoryPayload w k false true).deckUM.undoStack, it.meta.isSome = true) ∧
    (enqueueTextHistoryPayload w k false true).deckUM.redoStack = w.deckUM.redoStack := by
  simp only [enqueueTextHistoryPayload, deckCapture, deckTrackedOrigins,
    createDeckCaptureTransaction, mkDelta_changes, TxnChanges.nonempty, hl, iterAdded_one,
    handleAdded_textHistory_none]
  simp only [List.isEmpty_nil, Bool.not_true, Bool.or_false, Bool.false_or, Bool.true_and,
    if_true, Bool.and_self, reduceIte]
  constructor
  · intro it hit
    rcases List.mem_cons.mp hit with h | h
    · rw [h]
      exact dequeue_append_isSome w.queue ⟨k⟩
    · exact hund it h
  · rfl

theorem fragRedo_redo_delegated (w : World) (k : String) (hl : w.deckListeners = 1)
    (hund : ∀ it ∈ w.deckUM.undoStack, it.meta.isSome = true) :
    (∀ it ∈ (fragRedo w k false true).deckUM.undoStack, it.meta.isSome = true) ∧
    (fragRedo w k false true).deckUM.redoStack = w.deckUM.redoStack := by
  cases halg : alGet w.registry k with
  | none => simp only [fragRedo, halg]; exact ⟨hund, trivial⟩
  | some um =>
    cases hus : um.redoStack with
    | nil => simp only [fragRedo, halg, hus]; exact ⟨hund, trivial⟩
    | cons item rest =>
      simp only [fragRedo, halg, hus, attachLocalListenersHandler]
      rw [if_neg (by decide : ¬(StackEventType.undo = StackEventType.redo))]
      exact enqueue_redo_delegated _ k hl hund

theorem popped_redo_delegated (w : World) (item : StackItem) (hl : w.deckListeners = 1)
    (hund : ∀ it ∈ w.deckUM.undoStack, it.meta.isSome = true) :
    (∀ it ∈ (handleStackItemPopped w item .redo false true).deckUM.undoStack,
      it.meta.isSome = true) ∧
    (handleStackItemPopped w item .redo false true).deckUM.redoStack = w.deckUM.redoStack := by
  cases hm : item.meta with
  | none => simp only [handleStackItemPopped, hm]; exact ⟨hund, trivial⟩
  | some p =>
    simp only [handleStackItemPopped, hm]
    rw [if_neg (by decide : ¬(StackEventType.redo = StackEventType.undo))]
    have hf := getFragmentHistory_frame w p.fragmentKey
    have h1 := fragRedo_redo_delegated (getFragmentHistory w p.fragmentKey).1 p.fragmentKey
      (by rw [hf.2.2.1]; exact hl) (by rw [hf.1]; exact hund)
    refine ⟨h1.1, ?_⟩
    rw [h1.2, hf.1]

theorem popped_undo_deckUM (w : World) (item : StackItem) (u r : Bool) :
    (handleStackItemPopped w item .undo u r).deckUM = w.deckUM := by
  cases hm : item.meta with
  | none => simp only [handleStackItemPopped, hm]
  | some p =>
    simp only [handleStackItemPopped, hm]
    rw [if_pos trivial]
    rw [(fragUndo_frame _ _ _ _).1, (getFragmentHistory_frame w p.fragmentKey).1]

theorem iterPopped_undo_deckUM (n : Nat) (w : World) (item : StackItem) (u r : Bool) :
    (iterPopped n w item .undo u r).deckUM = w.deckUM := by
  induction n generalizing w with
  | zero => rfl
  | succ n ih => rw [iterPopped, ih, popped_undo_deckUM]

theorem deckUndo_delegated (w : World) (hl : w.deckListeners = 1) (h : allDelegated w) :
    allDelegated (deckUndo w) := by
  obtain ⟨hund, hred⟩ := h
  cases hS : w.deckUM.undoStack with
  | nil =>
    have hid : deckUndo w = w := by simp [deckUndo, hS]
    rw [hid]
    exact ⟨hund, hred⟩
  | cons item rest =>
    obtain ⟨p, hp⟩ := Option.isSome_iff_exists.mp
      (hund item (by rw [hS]; exact List.mem_cons_self _ _))
    have hrest : ∀ it ∈ rest, it.meta.isSome = true :=
      fun it hit => hund it (by rw [hS]; exact List.mem_cons_of_mem _ hit)
    simp only [deckUndo, hS]
    by_cases hc : createDeckCaptureTransaction (revertDelta item.delta w.doc).changes = true
    · have hcap : deckCapture
          { w with doc := applyBefore item.delta w.doc, deckUM := { w.deckUM with undoStack := rest } }
          .deckManager (revertDelta item.delta w.doc) true false (some item)
          = { w with doc := applyBefore item.delta w.doc,
                     deckUM := { undoStack := rest,
                                 redoStack := { delta := revertDelta item.delta w.doc, meta := some p }
                                   :: w.deckUM.redoStack } } := by
        simp [deckCapture, deckTrackedOrigins, hc, hl, iterAdded_one, handleStackItemAdded, hp]
      rw [hcap]
      constructor
      · intro it hit
        rw [iterPopped_undo_deckUM] at hit
        exact hrest it hit
      · intro it hit
        rw [iterPopped_undo_deckUM] at hit
        rcases List.mem_cons.mp hit with hh | hh
        · rw [hh]; rfl
        · exact hred it hh
    · have hcap : deckCapture
          { w with doc := applyBefore item.delta w.doc, deckUM := { w.deckUM with undoStack := rest } }
          .deckManager (revertDelta item.delta w.doc) true false (some item)
          = { w with doc := applyBefore item.delta w.doc, deckUM := { w.deckUM with undoStack := rest } } := by
        simp only [Bool.not_eq_true] at hc
        simp [deckCapture, hc]
      rw [hcap]
      constructor
      · intro it hit
        rw [iterPopped_undo_deckUM] at hit
        exact hrest it hit
      · intro it hit
        rw [iterPopped_undo_deckUM] at hit
        exact hred it hit

theorem iterPopped_redo_delegated (w : World) (item : StackItem) (hl : w.deckListeners = 1)
    (hund : ∀ it ∈ w.deckUM.undoStack, it.meta.isSome = true)
    (hred : ∀ it ∈ w.deckUM.redoStack, it.meta.isSome = true) :
    allDelegated (iterPopped w.deckListeners w item .redo false true) := by
  rw [hl, show iterPopped 1 = fun w item t u r => handleStackItemPopped w item t u r from rfl]
  obtain ⟨g1, g2⟩ := popped_redo_delegated w item hl hund
  refine ⟨g1, ?_⟩
  intro it hit
  rw [g2] at hit
  exact hred it hit

theorem deckRedo_delegated (w : World) (hl : w.deckListeners = 1) (h : allDelegated w) :
    allDelegated (deckRedo w) := by
  obtain ⟨hund, hred⟩ := h
  cases hS : w.deckUM.redoStack with
  | nil =>
    have hid : deckRedo w = w := by simp [deckRedo, hS]
    rw [hid]
    exact ⟨hund, hred⟩
  | cons item rest =>
    obtain ⟨p, hp⟩ := Option.isSome_iff_exists.mp
      (hred item (by rw [hS]; exact List.mem_cons_self _ _))
    have hrest : ∀ it ∈ rest, it.meta.isSome = true :=
      fun it hit => hred it (by rw [hS]; exact List.mem_cons_of_mem _ hit)
    simp only [deckRedo, hS]
    by_cases hc : createDeckCaptureTransaction (revertDelta item.delta w.doc).changes = true
    · have hcap : deckCapture
          { w with doc := applyBefore item.delta w.doc, deckUM := { w.deckUM with redoStack := rest } }
          .deckManager (revertDelta item.delta w.doc) false true (some item)
          = { w with doc := applyBefore item.delta w.doc,
                     deckUM := { undoStack := { delta := revertDelta item.delta w.doc, meta := some p }
                                   :: w.deckUM.undoStack,
                                 redoStack := rest } } := by
        simp [deckCapture, deckTrackedOrigins, hc, hl, iterAdded_one, handleStackItemAdded, hp]
      rw [hcap]
      refine iterPopped_redo_delegated _ item ?_ ?_ ?_
      · exact hl
      · intro it hit
        rcases List.mem_cons.mp hit with hh | hh
        · rw [hh]; rfl
        · exact hund it hh
      · intro it hit
        exact hrest it hit
    · have hcap : deckCapture
          { w with doc := applyBefore item.delta w.doc, deckUM := { w.deckUM with redoStack := rest } }
          .deckManager (revertDelta item.delta w.doc) false true (some item)
          = { w with doc := applyBefore item.delta w.doc, deckUM := { w.deckUM with redoStack := rest } } := by
        simp only [Bool.not_eq_true] at hc
        simp [deckCapture, hc]
      rw [hcap]
      refine iterPopped_redo_delegated _ item ?_ ?_ ?_
      · exact hl
      · intro it hit
        exact hund it hit
      · intro it hit
        exact hrest it hit

/-- C4: When the deck manager pushes a new Stack Item while it is itself
replaying (the transaction's origin is the deck undo manager),
`handleStackItemAdded` copies the `{fragmentKey}` metadata of the
`currStackItem` being processed onto the new item without consulting the
pending queue; consequently, with the bridge listeners attached once,
every delegated deck entry remains delegated across any sequence of deck
undo()/redo() calls. -/
theorem capture_during_replay_copies_metadata (w : World) (ops : List HistoryOp)
    (hl : w.deckListeners = 1) (hd : allDelegated w) :
    allDelegated (runHistoryOps w ops) ∧
    (∀ (δ₀ : DocDelta) (pp : TextHistoryPayload) (q : List TextHistoryPayload)
        (m : Option TextHistoryPayload),
      handleStackItemAdded .deckManager (some { delta := δ₀, meta := some pp }) q m
        = (some pp, q)) := by
  constructor
  · induction ops generalizing w with
    | nil => exact hd
    | cons op rest ih =>
      have hstep : allDelegated (runHistoryOp w op) := by
        cases op with
        | undo => exact deckUndo_delegated w hl hd
        | redo => exact deckRedo_delegated w hl hd
      have hls : (runHistoryOp w op).deckListeners = 1 := by
        cases op with
        | undo => rw [runHistoryOp, deckUndo_listeners]; exact hl
        | redo => rw [runHistoryOp, deckRedo_listeners]; exact hl
      exact ih (runHistoryOp w op) hls hstep
  · intro δ₀ pp q m
    simp [handleStackItemAdded]

/-- A session holding one delegated deck entry over an empty fragment
manager, used to instantiate the replay-metadata invariant. -/
def delegatedDemoWorld : World :=
  { doc := {},
    deckUM := { undoStack := [{ delta := { counter := some (none, some 1) },
                                meta := some ⟨"text-t1"⟩ }] },
    registry := [("text-t1", {})], queue := [], deckBridged := true, deckListeners := 1 }

/-- Witness for C4 at a concrete session and a concrete undo/redo run. -/
theorem capture_during_replay_copies_metadata_witness :
    allDelegated (runHistoryOps delegatedDemoWorld [HistoryOp.undo, HistoryOp.redo]) :=
  (capture_during_replay_copies_metadata delegatedDemoWorld [HistoryOp.undo, HistoryOp.redo]
    rfl (by simp [allDelegated, delegatedDemoWorld])).1

/-- C3: Whenever the deck manager pushes a new Stack Item for a
transaction whose origin is `TEXT_HISTORY_ORIGIN`, exactly one payload is
dequeued from the head of the pending queue (FIFO) and attached to the
new Stack Item's metadata; when the queue is empty the event is dropped
as a no-op and no metadata is attached (the item keeps an empty
metadata mapping). -/
theorem relay_capture_dequeues_exactly_one (w : World) (δ : DocDelta)
    (p : TextHistoryPayload) (rest : List TextHistoryPayload)
    (hq : w.queue = p :: rest) (hδ : δ.changes.nonempty = true) (hl : w.deckListeners = 1) :
    (deckCapture w .textHistory δ false false none).queue = rest ∧
    (deckCapture w .textHistory δ false false none).deckUM.undoStack
      = { delta := δ, meta := some p } :: w.deckUM.undoStack ∧
    (deckCapture w .textHistory δ false false none).deckUM.redoStack = [] ∧
    (deckCapture { w with queue := [] } .textHistory δ false false none).queue = [] ∧
    (deckCapture { w with queue := [] } .textHistory δ false false none).deckUM.undoStack
      = { delta := δ, meta := none } :: w.deckUM.undoStack ∧
    dequeuePayload (p :: rest) = (some p, rest) ∧
    dequeuePayload [] = (none, []) := by
  refine ⟨?_, ?_, ?_, ?_, ?_, rfl, rfl⟩ <;>
    simp [deckCapture, deckTrackedOrigins, createDeckCaptureTransaction, hδ, hl,
      iterAdded_one, handleStackItemAdded, dequeuePayload, hq]

/-- Witness for C3: a one-payload queue is consumed and attached; the
empty queue yields an item without metadata. -/
theorem relay_capture_dequeues_exactly_one_witness :
    (deckCapture { initialWorld emptyDoc with queue := [⟨"text-t1"⟩] } .textHistory
        { counter := some (none, some 1) } false false none).queue = [] ∧
    (deckCapture { initialWorld emptyDoc with queue := [⟨"text-t1"⟩] } .textHistory
        { counter := some (none, some 1) } false false none).deckUM.undoStack
      = [{ delta := { counter := some (none, some 1) }, meta := some ⟨"text-t1"⟩ }] := by
  have h := relay_capture_dequeues_exactly_one
    { initialWorld emptyDoc with queue := [⟨"text-t1"⟩] }
    { counter := some (none, some 1) } ⟨"text-t1"⟩ [] rfl rfl rfl
  exact ⟨h.1, h.2.1⟩

/-- C7: A deck-level popped Stack Item carrying a `{fragmentKey}` payload
whose key has no registered fragment history is a recoverable no-op: the
document, the deck manager's stacks and the pending queue are unchanged
(the handler merely caches a fresh empty-stacked fragment manager for the
key), and no error is surfaced — the handler is a total function. -/
theorem missing_fragment_pop_is_noop (w : World) (δ : DocDelta) (k : String)
    (t : StackEventType) (u r : Bool) (hmiss : alGet w.registry k = none) :
    (handleStackItemPopped w { delta := δ, meta := some ⟨k⟩ } t u r).doc = w.doc ∧
    (handleStackItemPopped w { delta := δ, meta := some ⟨k⟩ } t u r).deckUM = w.deckUM ∧
    (handleStackItemPopped w { delta := δ, meta := some ⟨k⟩ } t u r).queue = w.queue ∧
    (handleStackItemPopped w { delta := δ, meta := some ⟨k⟩ } t u r).registry
      = alSet w.registry k { undoStack := [], redoStack := [] } := by
  have hfu : fragUndo { w with registry := alSet w.registry k {} } k u r
      = { w with registry := alSet w.registry k {} } := by
    simp [fragUndo, alGet_alSet_self]
  have hfr : fragRedo { w with registry := alSet w.registry k {} } k u r
      = { w with registry := alSet w.registry k {} } := by
    simp [fragRedo, alGet_alSet_self]
  cases t with
  | undo =>
    simp only [handleStackItemPopped, getFragmentHistory, hmiss]
    rw [if_pos trivial, hfu]
    exact ⟨rfl, rfl, rfl, rfl⟩
  | redo =>
    simp only [handleStackItemPopped, getFragmentHistory, hmiss]
    rw [if_neg (by decide : ¬(StackEventType.redo = StackEventType.undo)), hfr]
    exact ⟨rfl, rfl, rfl, rfl⟩

/-- Witness for C7 at a concrete session. -/
theorem missing_fragment_pop_is_noop_witness :
    (handleStackItemPopped (initialWorld emptyDoc)
      { delta := { counter := some (none, some 1) }, meta := some ⟨"text-gone"⟩ }
      .undo true false).doc = (initialWorld emptyDoc).doc :=
  (missing_fragment_pop_is_noop (initialWorld emptyDoc) { counter := some (none, some 1) }
    "text-gone" .undo true false rfl).1

/-- C9: the registry's getOrCreate (`getTextUndoManager` /
`getFragmentHistory`) is idempotent per key: the first call on an
unregistered key constructs and caches exactly one fragment-scoped
manager with empty stacks (its local push listener attached on
construction), and every later call with the same key returns that
identical cached manager without changing any state. -/
theorem fragment_registry_idempotent (w : World) (k : String) :
    getFragmentHistory (getFragmentHistory w k).1 k = getFragmentHistory w k ∧
    alGet ((getFragmentHistory w k).1).registry k = some (getFragmentHistory w k).2 ∧
    (alGet w.registry k = none →
      (getFragmentHistory w k).2 = { undoStack := [], redoStack := [] } ∧
      (getFragmentHistory w k).1
        = { w with registry := alSet w.registry k { undoStack := [], redoStack := [] } }) ∧
    getTextUndoManager w k = getFragmentHistory w k := by
  cases halg : alGet w.registry k with
  | some um =>
    refine ⟨?_, ?_, ?_, rfl⟩
    · simp [getFragmentHistory, halg]
    · simp [getFragmentHistory, halg]
    · intro hnone
      exact absurd hnone (by simp)
  | none =>
    refine ⟨?_, ?_, ?_, rfl⟩
    · simp [getFragmentHistory, halg, alGet_alSet_self]
    · simp [getFragmentHistory, halg, alGet_alSet_self]
    · intro _
      simp [getFragmentHistory, halg]

/-- Witness for C9: creating then re-requesting the history of a fresh
key in a fresh session. -/
theorem fragment_registry_idempotent_witness :
    getFragmentHistory (getFragmentHistory (initialWorld emptyDoc) "text-t1").1 "text-t1"
      = getFragmentHistory (initialWorld emptyDoc) "text-t1" ∧
    (getFragmentHistory (initialWorld emptyDoc) "text-t1").2
      = { undoStack := [], redoStack := [] } := by
  have h := fragment_registry_idempotent (initialWorld emptyDoc) "text-t1"
  exact ⟨h.1, (h.2.2.1 rfl).1⟩

/-- Iterated `registerDeckUndoManager` calls (the store registers on
every `getOrCreateUndoManager` call). -/
def registerTimes : Nat → World → World
  | 0, w => w
  | n + 1, w => registerTimes n (registerDeckUndoManager w)

/-- C10: `registerDeckUndoManager` is idempotent per deck manager: the
membership guard makes the first call attach the listener pair once and
every later call a no-op, so after any positive number of registrations
exactly one listener pair is attached, and one relay capture consumes
exactly one queued payload. -/
theorem register_deck_undo_manager_idempotent (w : World) (n : Nat)
    (hb : w.deckBridged = false) (hc : w.deckListeners = 0) :
    registerDeckUndoManager (registerDeckUndoManager w) = registerDeckUndoManager w ∧
    (registerTimes (n + 1) w).deckListeners = 1 ∧
    (registerTimes (n + 1) w).deckBridged = true ∧
    (∀ (p : TextHistoryPayload) (rest : List TextHistoryPayload) (c : Option StackItem),
      iterAdded (registerTimes (n + 1) w).deckListeners .textHistory c (none, p :: rest)
        = (some p, rest)) := by
  have hreg1 : registerDeckUndoManager w
      = { w with deckBridged := true, deckListeners := w.deckListeners + 1 } := by
    simp [registerDeckUndoManager, hb]
  have hstable : ∀ (m : Nat) (v : World), v.deckBridged = true → registerTimes m v = v := by
    intro m
    induction m with
    | zero => intro v _; rfl
    | succ m ih =>
      intro v hv
      rw [registerTimes, show registerDeckUndoManager v = v from by simp [registerDeckUndoManager, hv]]
      exact ih v hv
  have hrt : registerTimes (n + 1) w
      = { w with deckBridged := true, deckListeners := w.deckListeners + 1 } := by
    rw [registerTimes, hreg1, hstable n _ rfl]
  have h2 : ∀ v : World, v.deckBridged = true → registerDeckUndoManager v = v := by
    intro v hv
    simp [registerDeckUndoManager, hv]
  refine ⟨?_, ?_, ?_, ?_⟩
  · rw [hreg1]
    exact h2 _ rfl
  · rw [hrt]
    simp [hc]
  · rw [hrt]
  · intro p rest c
    rw [hrt]
    simp [hc, iterAdded_one, handleAdded_textHistory_none, dequeuePayload]

/-- Witness for C10: three registrations of a fresh manager attach one
listener pair. -/
theorem register_deck_undo_manager_idempotent_witness :
    (registerTimes 3 ({} : World)).deckListeners = 1 ∧
    (registerTimes 3 ({} : World)).deckBridged = true := by
  have h := register_deck_undo_manager_idempotent ({} : World) 2 rfl rfl
  exact ⟨h.2.1, h.2.2.1⟩

/-- Counterexample to C5: `setDeckTitle` performs an unconditional
`deckMap.set(TITLE_KEY, title)`, and a set is a structural change even
when the written value equals the current one, so `createDeckCaptureTransaction`
fires and a second `setDeckTitle "t"` on a deck already titled `"t"`
creates a second Undo Stack entry. -/
theorem same_value_set_creates_entry :
    (runDeckAction (initialWorld emptyDoc) (DeckAction.setDeckTitle "t")).doc.deck.title
      = some "t" ∧
    (runDeckAction (initialWorld emptyDoc) (DeckAction.setDeckTitle "t")).deckUM.undoStack.length
      = 1 ∧
    (runDeckAction (runDeckAction (initialWorld emptyDoc) (DeckAction.setDeckTitle "t"))
      (DeckAction.setDeckTitle "t")).deckUM.undoStack.length = 2 := by
  refine ⟨rfl, rfl, rfl⟩

/-- C5 amended: a transaction that performs no CRDT write — e.g.
`updateObjectPosition` whose `findObject` lookup misses, on a document
whose deck containers are already initialized — reports no changes, so
the capture predicate does not fire and the session state is completely
unchanged; `setDeckTitle`, however, always writes the title key, so it
always creates a new Undo Stack entry, even when the title is unchanged. -/
theorem noop_transaction_creates_no_entry (w : World) (sid oid : String) (px py : Int)
    (hens : (ensureDeckStructure w.doc.deck).2 = false)
    (hmiss : findObject (ensureDeckStructure w.doc.deck).1 sid oid = none) :
    runDeckAction w (DeckAction.updateObjectPosition sid oid px py) = w ∧
    (∀ t : String, (runDeckAction w (DeckAction.setDeckTitle t)).deckUM.undoStack.length
        = w.deckUM.undoStack.length + 1) := by
  have he1 : (ensureDeckStructure w.doc.deck).1 = w.doc.deck :=
    ensureDeckStructure_of_unchanged _ hens
  constructor
  · simp only [runDeckAction, runTxn, deckActionTxn, updateObjectPosition]
    cases hs : alGet ((ensureDeckStructure w.doc.deck).1.slides.getD []) sid with
    | none =>
      simp [hs, hens, he1, deckCapture, createDeckCaptureTransaction, mkDelta,
        DocDelta.changes, TxnChanges.nonempty]
    | some ys =>
      have hoid : alGet ys.objects oid = none := by
        simp only [findObject, hs] at hmiss
        exact hmiss
      simp [hs, hoid, hens, he1, deckCapture, createDeckCaptureTransaction, mkDelta,
        DocDelta.changes, TxnChanges.nonempty]
  · intro t
    simp only [runDeckAction, runTxn, deckActionTxn, setDeckTitle]
    simp [deckCapture, deckTrackedOrigins, createDeckCaptureTransaction, mkDelta,
      DocDelta.changes, TxnChanges.nonempty,
      iterAdded_untracked w.deckListeners .deckHistory none (none, w.queue)
        (by decide) (by decide)]

/-- Witness for the amended C5 at a concrete session: a position update
for a missing object is a complete no-op. -/
theorem noop_transaction_creates_no_entry_witness :
    runDeckAction (runDeckAction (initialWorld emptyDoc) (DeckAction.setDeckTitle "t"))
      (DeckAction.updateObjectPosition "s1" "o1" 3 4)
      = runDeckAction (initialWorld emptyDoc) (DeckAction.setDeckTitle "t") :=
  (noop_transaction_creates_no_entry
    (runDeckAction (initialWorld emptyDoc) (DeckAction.setDeckTitle "t"))
    "s1" "o1" 3 4 (by decide) (by decide)).1

/-- A local text edit: a transaction that rewrites one fragment's
subtree, as the rich-text editing surface's sync binding does; it touches
only that fragment's region. -/
def setFragmentContent (key : String) (content : List String) (d : YDoc) : YDoc × TxnChanges :=
  ({ d with fragments := alSet d.fragments key content }, { frags := [key] })

/-- A session whose document holds fragment `text-t1` with content `a`
and whose registry already caches that fragment's history manager. -/
def untaggedDemoWorld : World :=
  { initialWorld { fragments := [("text-t1", ["a"])] } with registry := [("text-t1", {})] }

/-- Counterexample to C8: fragment managers are constructed with the
substrate's default tracked origins, which contain the untagged (null)
origin — so an untagged transaction editing a registered fragment does
create a fragment-level undo entry (and, through the relay, a delegated
deck-level entry). -/
theorem untagged_fragment_edit_is_captured :
    ((alGet (runTxn untaggedDemoWorld .null (setFragmentContent "text-t1" ["ab"])).registry
        "text-t1").map (fun um => um.undoStack.length)) = some 1 ∧
    (runTxn untaggedDemoWorld .null (setFragmentContent "text-t1" ["ab"])).deckUM.undoStack.length
      = 1 ∧
    ((runTxn untaggedDemoWorld .null (setFragmentContent "text-t1" ["ab"])).deckUM.undoStack.map
        StackItem.meta) = [some ⟨"text-t1"⟩] := by
  refine ⟨rfl, rfl, rfl⟩

/-- C8 amended: an untagged (null-origin) transaction is never captured
by the deck manager — null is not among its tracked origins — and when
it touches no registered fragment it creates no entry in any fragment
manager either and leaves the pending queue alone; but an untagged edit
of a registered fragment is captured by that fragment's manager (see the
counterexample). -/
theorem untagged_transaction_not_captured (w : World) (mutate : YDoc → YDoc × TxnChanges)
    (h : ∀ k ∈ (mutate w.doc).2.frags, alGet w.registry k = none) :
    (runTxn w .null mutate).deckUM = w.deckUM ∧
    (runTxn w .null mutate).registry = w.registry ∧
    (runTxn w .null mutate).queue = w.queue := by
  simp only [runTxn]
  have hfold : ∀ (ks : List String) (v : World), v.registry = w.registry →
      (∀ k ∈ ks, alGet w.registry k = none) →
      (ks.foldl (fun acc k => fragCaptureOne acc .null w.doc (mutate w.doc).1 k) v) = v := by
    intro ks
    induction ks with
    | nil => intro v _ _; rfl
    | cons k ks ih =>
      intro v hv hks
      rw [List.foldl_cons]
      have hskip : fragCaptureOne v .null w.doc (mutate w.doc).1 k = v := by
        have hvk : alGet v.registry k = none := by
          rw [hv]; exact hks k (List.mem_cons_self _ _)
        simp [fragCaptureOne, hvk]
      rw [hskip]
      exact ih v hv (fun k' hk' => hks k' (List.mem_cons_of_mem _ hk'))
  rw [hfold (mutate w.doc).2.frags { w with doc := (mutate w.doc).1 } rfl h]
  simp [deckCapture, deckTrackedOrigins]

/-- Witness for the amended C8: an untagged edit of an unregistered
fragment in a fresh session captures nothing. -/
theorem untagged_transaction_not_captured_witness :
    (runTxn (initialWorld emptyDoc) .null (setFragmentContent "text-t1" ["x"])).deckUM
      = (initialWorld emptyDoc).deckUM ∧
    (runTxn (initialWorld emptyDoc) .null (setFragmentContent "text-t1" ["x"])).registry = [] := by
  have h := untagged_transaction_not_captured (initialWorld emptyDoc)
    (setFragmentContent "text-t1" ["x"]) (by decide)
  exact ⟨h.1, h.2.1⟩

/-- A session over fragment `text-t1` (content `a`) whose history manager
is registered but whose deck manager is not yet bridged, after an
untagged local edit to `ab`: the fragment manager captured the edit and
the local listener enqueued one payload (nothing consumes it while the
bridge listeners are not attached). -/
def unbridgedEditSession : World :=
  runTxn (getTextUndoManager { doc := { fragments := [("text-t1", ["a"])] } } "text-t1").1
    .null (setFragmentContent "text-t1" ["ab"])

/-- Counterexample to C2: the local push listener skips only events of
type `redo`; a fragment `redo()` — a replay — pushes onto the fragment's
undo stack with event type `undo`, so it does enqueue a payload (the
queue grows from one pending payload to two), while the fragment
`undo()` replay enqueues nothing. -/
theorem fragment_redo_replay_enqueues_payload :
    unbridgedEditSession.queue = [⟨"text-t1"⟩] ∧
    (fragUndo unbridgedEditSession "text-t1" false false).queue = [⟨"text-t1"⟩] ∧
    (fragUndo unbridgedEditSession "text-t1" false false).doc.fragAt "text-t1" = ["a"] ∧
    (fragRedo (fragUndo unbridgedEditSession "text-t1" false false) "text-t1" false false).queue
      = [⟨"text-t1"⟩, ⟨"text-t1"⟩] ∧
    (fragRedo (fragUndo unbridgedEditSession "text-t1" false false) "text-t1" false
        false).doc.fragAt "text-t1" = ["ab"] := by
  refine ⟨rfl, rfl, rfl, rfl, rfl⟩

/-- C2 amended: the fragment-local push listener enqueues exactly one
`{fragmentKey}` payload and triggers the counter-only relay transaction
tagged `TEXT_HISTORY_ORIGIN` for every push whose event type is `undo` —
which covers both genuine local edits and fragment `redo()` replays —
and skips exactly the pushes of type `redo` (items captured while the
fragment manager is undoing); a fragment `undo()` therefore never
enqueues, and the relay transaction touches neither the deck tree nor
any fragment. -/
theorem fragment_push_enqueue_behaviour (w : World) (k : String) (u r : Bool) :
    attachLocalListenersHandler w k .redo u r = w ∧
    attachLocalListenersHandler w k .undo u r = enqueueTextHistoryPayload w k u r ∧
    (fragUndo w k u r).queue = w.queue ∧
    (fragUndo w k u r).deckUM = w.deckUM ∧
    (enqueueTextHistoryPayload { w with deckListeners := 0 } k u r).queue
      = w.queue ++ [⟨k⟩] ∧
    (enqueueTextHistoryPayload w k u r).doc.textCounter
      = some (w.doc.textCounter.getD 0 + 1) ∧
    (enqueueTextHistoryPayload w k u r).doc.deck = w.doc.deck ∧
    (enqueueTextHistoryPayload w k u r).doc.fragments = w.doc.fragments := by
  refine ⟨rfl, rfl, (fragUndo_frame w k u r).2.1, (fragUndo_frame w k u r).1, ?_, ?_, ?_, ?_⟩
  · simp only [enqueueTextHistoryPayload, deckCapture, iterAdded]
    split <;> rfl
  · simp only [enqueueTextHistoryPayload]
    have hq : ∀ (v : World) (δ : DocDelta) (o : Origin) (c : Option StackItem),
        (deckCapture v o δ u r c).doc = v.doc := by
      intro v δ o c
      unfold deckCapture
      split <;> rfl
    rw [hq]
  · have hq : ∀ (v : World) (δ : DocDelta) (o : Origin) (c : Option StackItem),
        (deckCapture v o δ u r c).doc = v.doc := by
      intro v δ o c
      unfold deckCapture
      split <;> rfl
    simp only [enqueueTextHistoryPayload]
    rw [hq]
  · have hq : ∀ (v : World) (δ : DocDelta) (o : Origin) (c : Option StackItem),
        (deckCapture v o δ u r c).doc = v.doc := by
      intro v δ o c
      unfold deckCapture
      split <;> rfl
    simp only [enqueueTextHistoryPayload]
    rw [hq]

/-- Witness for the amended C2 at a concrete session. -/
theorem fragment_push_enqueue_behaviour_witness :
    attachLocalListenersHandler unbridgedEditSession "text-t1" .redo false false
      = unbridgedEditSession ∧
    (enqueueTextHistoryPayload unbridgedEditSession "text-t1" false false).queue
      = [⟨"text-t1"⟩, ⟨"text-t1"⟩] := by
  have h := fragment_push_enqueue_behaviour unbridgedEditSession "text-t1" false false
  refine ⟨h.1, ?_⟩
  have h5 := h.2.2.2.2.1
  have hsame : ({ unbridgedEditSession with deckListeners := 0 } : World)
      = unbridgedEditSession := by
    decide
  rw [hsame] at h5
  rw [h5]
  rfl

theorem deckCapture_doc (w : World) (o : Origin) (δ : DocDelta) (u r : Bool)
    (c : Option StackItem) : (deckCapture w o δ u r c).doc = w.doc := by
  unfold deckCapture
  split <;> rfl

theorem deckCapture_registry (w : World) (o : Origin) (δ : DocDelta) (u r : Bool)
    (c : Option StackItem) : (deckCapture w o δ u r c).registry = w.registry := by
  unfold deckCapture
  split <;> rfl

theorem enqueue_doc_fragments (w : World) (k : String) (u r : Bool) :
    (enqueueTextHistoryPayload w k u r).doc.fragments = w.doc.fragments := by
  simp only [enqueueTextHistoryPayload]
  rw [deckCapture_doc]

theorem applyBefore_fragments_nil (δ : DocDelta) (d : YDoc) (h : δ.frags = []) :
    (applyBefore δ d).fragments = d.fragments := by
  simp [applyBefore, h]

theorem revertDelta_frags (δ : DocDelta) (cur : YDoc) :
    (revertDelta δ cur).frags = δ.frags.map (fun kba => (kba.1, cur.fragAt kba.1, kba.2.1)) := rfl

theorem revertDelta_counter_isSome (δ : DocDelta) (cur : YDoc) :
    ((revertDelta δ cur).counter).isSome = δ.counter.isSome := by
  simp [revertDelta]

theorem capture_pred_of_counter (δ : DocDelta) (h : δ.counter.isSome = true) :
    createDeckCaptureTransaction δ.changes = true := by
  simp [createDeckCaptureTransaction, TxnChanges.nonempty, DocDelta.changes, h]

theorem fragUndo_spec (w : World) (k : String) (fum : UMState) (b a : List String)
    (mno : Option TextHistoryPayload) (frest : List StackItem) (u r : Bool)
    (hr : alGet w.registry k = some fum)
    (hf : fum.undoStack = { delta := { frags := [(k, b, a)] }, meta := mno } :: frest) :
    fragUndo w k u r
      = { w with doc := { w.doc with fragments := alSet w.doc.fragments k b },
                 registry := alSet w.registry k
                   { undoStack := frest,
                     redoStack := { delta := { frags := [(k, w.doc.fragAt k, b)] } }
                       :: fum.redoStack } } := by
  simp only [fragUndo, hr, hf]
  simp [applyBefore, revertDelta, attachLocalListenersHandler]

theorem fragRedo_spec (w : World) (k : String) (fum : UMState) (b a : List String)
    (mno : Option TextHistoryPayload) (frest : List StackItem) (u r : Bool)
    (hr : alGet w.registry k = some fum)
    (hf : fum.redoStack = { delta := { frags := [(k, b, a)] }, meta := mno } :: frest) :
    fragRedo w k u r
      = enqueueTextHistoryPayload
          { w with doc := { w.doc with fragments := alSet w.doc.fragments k b },
                   registry := alSet w.registry k
                     { undoStack := { delta := { frags := [(k, w.doc.fragAt k, b)] } }
                         :: fum.undoStack,
                       redoStack := frest } } k u r := by
  simp only [fragRedo, hr, hf]
  simp [applyBefore, revertDelta, attachLocalListenersHandler]

theorem iterPopped_eq_one (w : World) (item : StackItem) (t : StackEventType) (u r : Bool)
    (hl : w.deckListeners = 1) :
    iterPopped w.deckListeners w item t u r = handleStackItemPopped w item t u r := by
  rw [hl]
  rfl

theorem deckUndo_delegated_spec (w : World) (item : StackItem) (rest : List StackItem)
    (k : String) (hu : w.deckUM.undoStack = item :: rest) (hm : item.meta = some ⟨k⟩)
    (hc : createDeckCaptureTransaction (revertDelta item.delta w.doc).changes = true)
    (hl : w.deckListeners = 1) :
    deckUndo w = handleStackItemPopped
      { w with doc := applyBefore item.delta w.doc,
               deckUM := { undoStack := rest,
                           redoStack := { delta := revertDelta item.delta w.doc, meta := some ⟨k⟩ }
                             :: w.deckUM.redoStack } }
      item .undo true false := by
  simp only [deckUndo, hu]
  have hcap : deckCapture
      { w with doc := applyBefore item.delta w.doc, deckUM := { w.deckUM with undoStack := rest } }
      .deckManager (revertDelta item.delta w.doc) true false (some item)
      = { w with doc := applyBefore item.delta w.doc,
                 deckUM := { undoStack := rest,
                             redoStack := { delta := revertDelta item.delta w.doc, meta := some ⟨k⟩ }
                               :: w.deckUM.redoStack } } := by
    simp [deckCapture, deckTrackedOrigins, hc, hl, iterAdded_one, handleStackItemAdded, hm]
  rw [hcap, iterPopped_eq_one]
  exact hl

theorem deckRedo_delegated_spec (w : World) (item : StackItem) (rest : List StackItem)
    (k : String) (hu : w.deckUM.redoStack = item :: rest) (hm : item.meta = some ⟨k⟩)
    (hc : createDeckCaptureTransaction (revertDelta item.delta w.doc).changes = true)
    (hl : w.deckListeners = 1) :
    deckRedo w = handleStackItemPopped
      { w with doc := applyBefore item.delta w.doc,
               deckUM := { undoStack := { delta := revertDelta item.delta w.doc, meta := some ⟨k⟩ }
                             :: w.deckUM.undoStack,
                           redoStack := rest } }
      item .redo false true := by
  simp only [deckRedo, hu]
  have hcap : deckCapture
      { w with doc := applyBefore item.delta w.doc, deckUM := { w.deckUM with redoStack := rest } }
      .deckManager (revertDelta item.delta w.doc) false true (some item)
      = { w with doc := applyBefore item.delta w.doc,
                 deckUM := { undoStack := { delta := revertDelta item.delta w.doc, meta := some ⟨k⟩ }
                               :: w.deckUM.undoStack,
                             redoStack := rest } } := by
    simp [deckCapture, deckTrackedOrigins, hc, hl, iterAdded_one, handleStackItemAdded, hm]
  rw [hcap, iterPopped_eq_one]
  exact hl

theorem popped_undo_registered (w : World) (item : StackItem) (k : String) (fum : UMState)
    (u r : Bool) (hm : item.meta = some ⟨k⟩) (hr : alGet w.registry k = some fum) :
    handleStackItemPopped w item .undo u r = fragUndo w k u r := by
  simp only [handleStackItemPopped, hm, getFragmentHistory, hr]
  rw [if_pos trivial]

theorem popped_redo_registered (w : World) (item : StackItem) (k : String) (fum : UMState)
    (u r : Bool) (hm : item.meta = some ⟨k⟩) (hr : alGet w.registry k = some fum) :
    handleStackItemPopped w item .redo u r = fragRedo w k u r := by
  simp only [handleStackItemPopped, hm, getFragmentHistory, hr]
  rw [if_neg (by decide : ¬(StackEventType.redo = StackEventType.undo))]

theorem deckUndo_delegated_fragments (w : World) (item : StackItem) (rest : List StackItem)
    (k : String) (fum : UMState) (b a : List String) (mno : Option TextHistoryPayload)
    (frest : List StackItem)
    (hu : w.deckUM.undoStack = item :: rest)
    (hm : item.meta = some ⟨k⟩)
    (hdc : item.delta.counter.isSome = true)
    (hdf : item.delta.frags = [])
    (hl : w.deckListeners = 1)
    (hr : alGet w.registry k = some fum)
    (hf : fum.undoStack = { delta := { frags := [(k, b, a)] }, meta := mno } :: frest) :
    (deckUndo w).doc.fragAt k = b ∧
    (deckUndo w).deckUM.undoStack = rest ∧
    (deckUndo w).deckUM.redoStack
      = { delta := revertDelta item.delta w.doc, meta := some ⟨k⟩ } :: w.deckUM.redoStack ∧
    (deckUndo w).deckListeners = 1 ∧
    alGet (deckUndo w).registry k
      = some { undoStack := frest,
               redoStack := { delta := { frags := [(k, w.doc.fragAt k, b)] } } :: fum.redoStack } := by
  have hc1 : createDeckCaptureTransaction (revertDelta item.delta w.doc).changes = true :=
    capture_pred_of_counter _ (by rw [revertDelta_counter_isSome]; exact hdc)
  have h1 := deckUndo_delegated_spec w item rest k hu hm hc1 hl
  have h2 : handleStackItemPopped { w with doc := applyBefore item.delta w.doc, deckUM := { undoStack := rest, redoStack := { delta := revertDelta item.delta w.doc, meta := some ⟨k⟩ } :: w.deckUM.redoStack } } item .undo true false = fragUndo { w with doc := applyBefore item.delta w.doc, deckUM := { undoStack := rest, redoStack := { delta := revertDelta item.delta w.doc, meta := some ⟨k⟩ } :: w.deckUM.redoStack } } k true false :=
    popped_undo_registered _ item k fum true false hm hr
  have h3 := fragUndo_spec { w with doc := applyBefore item.delta w.doc, deckUM := { undoStack := rest, redoStack := { delta := revertDelta item.delta w.doc, meta := some ⟨k⟩ } :: w.deckUM.redoStack } } k fum b a mno frest true false hr hf
  rw [h1, h2, h3]
  refine ⟨?_, rfl, rfl, hl, ?_⟩
  · simp [YDoc.fragAt, alGet_alSet_self]
  · simp [alGet_alSet_self, YDoc.fragAt, applyBefore, hdf]

theorem deckRedo_delegated_fragments (w' : World) (item' : StackItem) (rest' : List StackItem)
    (k : String) (fum' : UMState) (b2 a2 : List String) (mno' : Option TextHistoryPayload)
    (frest' : List StackItem)
    (hu : w'.deckUM.redoStack = item' :: rest')
    (hm : item'.meta = some ⟨k⟩)
    (hdc : item'.delta.counter.isSome = true)
    (hl : w'.deckListeners = 1)
    (hr : alGet w'.registry k = some fum')
    (hf : fum'.redoStack = { delta := { frags := [(k, b2, a2)] }, meta := mno' } :: frest') :
    (deckRedo w').doc.fragAt k = b2 := by
  have hc1 : createDeckCaptureTransaction (revertDelta item'.delta w'.doc).changes = true :=
    capture_pred_of_counter _ (by rw [revertDelta_counter_isSome]; exact hdc)
  have h1 := deckRedo_delegated_spec w' item' rest' k hu hm hc1 hl
  have h2 : handleStackItemPopped { w' with doc := applyBefore item'.delta w'.doc, deckUM := { undoStack := { delta := revertDelta item'.delta w'.doc, meta := some ⟨k⟩ } :: w'.deckUM.undoStack, redoStack := rest' } } item' .redo false true = fragRedo { w' with doc := applyBefore item'.delta w'.doc, deckUM := { undoStack := { delta := revertDelta item'.delta w'.doc, meta := some ⟨k⟩ } :: w'.deckUM.undoStack, redoStack := rest' } } k false true :=
    popped_redo_registered _ item' k fum' false true hm hr
  have h3 := fragRedo_spec { w' with doc := applyBefore item'.delta w'.doc, deckUM := { undoStack := { delta := revertDelta item'.delta w'.doc, meta := some ⟨k⟩ } :: w'.deckUM.undoStack, redoStack := rest' } } k fum' b2 a2 mno' frest' false true hr hf
  rw [h1, h2, h3]
  simp [YDoc.fragAt, enqueue_doc_fragments, alGet_alSet_self]

/-- C1: when a deck-level undo() pops a Stack Item whose metadata carries
a `{fragmentKey}` payload, the bridge resolves the fragment history for
that key and invokes the fragment manager's undo(), so the fragment's
text equals its recorded pre-edit value and the deck's canRedo() becomes
true; the subsequent deck redo() pops the delegated redo item and invokes
the fragment manager's redo(), restoring the post-edit value (the current
fragment content `a`). The hypotheses describe a delegated deck entry (a
captured relay transaction: counter-only change-set, payload metadata)
over a registered fragment manager whose top undo entry records the edit
`b → a`. -/
theorem delegated_deck_pop_drives_fragment (w : World) (item : StackItem)
    (rest : List StackItem) (k : String) (fum : UMState) (b a : List String)
    (mno : Option TextHistoryPayload) (frest : List StackItem)
    (hu : w.deckUM.undoStack = item :: rest)
    (hm : item.meta = some ⟨k⟩)
    (hdc : item.delta.counter.isSome = true)
    (hdf : item.delta.frags = [])
    (hl : w.deckListeners = 1)
    (hr : alGet w.registry k = some fum)
    (hf : fum.undoStack = { delta := { frags := [(k, b, a)] }, meta := mno } :: frest)
    (hcur : w.doc.fragAt k = a) :
    (deckUndo w).doc.fragAt k = b ∧
    canRedo (deckUndo w) = true ∧
    (deckRedo (deckUndo w)).doc.fragAt k = a := by
  obtain ⟨g1, g2, g3, g4, g5⟩ :=
    deckUndo_delegated_fragments w item rest k fum b a mno frest hu hm hdc hdf hl hr hf
  refine ⟨g1, ?_, ?_⟩
  · simp [canRedo, g3]
  · have h := deckRedo_delegated_fragments (deckUndo w)
      { delta := revertDelta item.delta w.doc, meta := some ⟨k⟩ } w.deckUM.redoStack k
      { undoStack := frest,
        redoStack := { delta := { frags := [(k, w.doc.fragAt k, b)] } } :: fum.redoStack }
      (w.doc.fragAt k) b none fum.redoStack
      g3 rfl (by rw [revertDelta_counter_isSome]; exact hdc) g4 g5 rfl
    rw [hcur] at h
    exact h

/-- A bridged session holding the state after one local text edit of
fragment `text-t1` from `hello world` to `hello world!`: the fragment
manager recorded the edit, and the deck manager holds the delegated
relay entry carrying the `{fragmentKey}` payload. -/
def c1World : World :=
  { doc := { fragments := [("text-t1", ["hello world!"])], textCounter := some 1 },
    deckUM := { undoStack := [{ delta := { counter := some (none, some 1) },
                                meta := some ⟨"text-t1"⟩ }] },
    registry := [("text-t1",
      { undoStack := [{ delta := { frags := [("text-t1", ["hello world"], ["hello world!"])] } }] })],
    queue := [], deckBridged := true, deckListeners := 1 }

/-- Witness for C1: deck undo restores the pre-edit text and arms redo;
deck redo restores the post-edit text. -/
theorem delegated_deck_pop_drives_fragment_witness :
    (deckUndo c1World).doc.fragAt "text-t1" = ["hello world"] ∧
    canRedo (deckUndo c1World) = true ∧
    (deckRedo (deckUndo c1World)).doc.fragAt "text-t1" = ["hello world!"] :=
  delegated_deck_pop_drives_fragment c1World
    { delta := { counter := some (none, some 1) }, meta := some ⟨"text-t1"⟩ } []
    "text-t1"
    { undoStack := [{ delta := { frags := [("text-t1", ["hello world"], ["hello world!"])] } }] }
    ["hello world"] ["hello world!"] none []
    rfl rfl rfl rfl rfl (by decide) rfl (by decide)
